import Mathlib

/-!
# udpbench: a shallow embedding of the send / receive engine

The Go sources `cmd/receive.go` and `cmd/send.go` are embedded as pure
functions over an explicit `Engine` state that holds the package-level
variables (`sent`, `answersRecv`, `bytesRecv`, `msgsRecv`, `bufferPool`), the
log, the datagrams written to sockets and the status of the process.

Everything the environment decides (what a socket read returns, whether a
write succeeds, how goroutines interleave) is an explicit input.
-/

namespace UdpBench

/-! ## Machine integers -/

/-- Two's complement wrap-around of an integer into the range of Go's `int64`. -/
def wrapInt64 (x : Int) : Int := (x + 2 ^ 63) % 2 ^ 64 - 2 ^ 63

/-- Go `atomic.AddInt64(&v, delta)`: the new value of `v`. -/
def atomicAddInt64 (v delta : Int) : Int := wrapInt64 (v + delta)

/-! ## Data model -/

/-- One byte of a datagram or of a pooled buffer. -/
abbrev Byte := Fin 256

/-- An abstract UDP address (the `*net.UDPAddr` returned by a read). -/
abbrev Addr := Nat

/-- Capacity of a pooled buffer: `make([]byte, 2048)` in `sync.Pool.New`. -/
def bufferSize : Nat := 2048

/-- A runtime panic raised by the Go runtime or standard library. -/
inductive Panic
  /-- The panic `makeslice: len out of range` of `make([]byte, n)`. -/
  | makesliceLenOutOfRange
  /-- The panic of `time.NewTicker(d)` with `d <= 0`, carrying `d` in nanoseconds. -/
  | nonPositiveTickerInterval (d : Int)
  deriving DecidableEq

/-- Status of the operating-system process. -/
inductive Proc
  /-- The process is running. -/
  | running
  /-- The process ended through `log.Fatal`, which calls `os.Exit(1)`. -/
  | exited (code : Nat)
  /-- The process crashed with an unrecovered panic. -/
  | panicked (p : Panic)
  deriving DecidableEq

/-- A line written through the `log` package. -/
inductive LogEntry
  /-- The line of `log.Println(err)`. -/
  | error
  /-- The line of `log.Fatal(err)`. -/
  | fatal
  /-- The line of `log.Printf("error sending message: %s\n", ...)`. -/
  | sendError
  /-- The line of `log.Println("exiting send routine...")`. -/
  | exitingSend
  /-- The line of `printStats`, with the two values it prints. -/
  | sendStats (sent answers : Int)
  /-- The line of `printRecvStats`, with the two values it prints. -/
  | recvStats (msgs bytes : Int)
  deriving DecidableEq

/-- The package-level state of `cmd`, together with the observable effects. -/
structure Engine where
  /-- Go `var sent int64`. -/
  sent : Int
  /-- Go `var answersRecv int64`. -/
  answersRecv : Int
  /-- Go `var bytesRecv int64`. -/
  bytesRecv : Int
  /-- Go `var msgsRecv int64`. -/
  msgsRecv : Int
  /-- Buffers held by `bufferPool`: those handed back by `Put`, most recent first. -/
  idle : List (List Byte)
  /-- Number of buffers obtained from `bufferPool.Get` and not yet handed to `Put`. -/
  checkedOut : Nat
  /-- Total number of `bufferPool.Get` calls. -/
  gets : Nat
  /-- Total number of `bufferPool.Put` calls. -/
  puts : Nat
  /-- Lines logged so far, oldest first. -/
  log : List LogEntry
  /-- Datagrams handed to a successful socket write, oldest first (`none`: the dialled target). -/
  wire : List (Option Addr × List Byte)
  /-- Status of the process. -/
  proc : Proc
  deriving DecidableEq

/-- The state right after `Run` has installed the pool: zeroed counters, empty pool. -/
def Engine.init : Engine :=
  { sent := 0, answersRecv := 0, bytesRecv := 0, msgsRecv := 0,
    idle := [], checkedOut := 0, gets := 0, puts := 0,
    log := [], wire := [], proc := Proc.running }

/-! ## Buffer pool (`sync.Pool` with `New = make([]byte, 2048)`) -/

/-- A fresh buffer as built by the pool's `New`: 2048 zero bytes. -/
def newBuffer : List Byte := List.replicate bufferSize 0

/-- Go `bufferPool.Get().([]byte)`: a buffer handed back earlier when there is
one (with whatever bytes it holds), a fresh one otherwise. -/
def bufferPoolGet (s : Engine) : List Byte × Engine :=
  match s.idle with
  | [] => (newBuffer, { s with checkedOut := s.checkedOut + 1, gets := s.gets + 1 })
  | b :: rest =>
    (b, { s with idle := rest, checkedOut := s.checkedOut + 1, gets := s.gets + 1 })

/-- Go `bufferPool.Put(buffer)`. -/
def bufferPoolPut (buffer : List Byte) (s : Engine) : Engine :=
  { s with idle := buffer :: s.idle, checkedOut := s.checkedOut - 1, puts := s.puts + 1 }

/-! ## Socket reads -/

/-- What one blocking read on a UDP socket returns. -/
inductive ReadResult
  /-- A datagram with the given payload arrived from `src`. -/
  | ok (payload : List Byte) (src : Addr)
  /-- The read failed (`err != nil`). -/
  | err
  deriving DecidableEq

/-- The effect of a successful `ReadFromUDP(buffer)`: the number `n` of bytes
copied and the buffer afterwards, whose first `n` bytes are the payload and
whose remaining bytes are untouched. -/
def readInto (buffer payload : List Byte) : Nat × List Byte :=
  let n := min payload.length buffer.length
  (n, payload.take n ++ buffer.drop n)

/-! ## `cmd/receive.go` -/

/-- Go `handleUDPConnection(conn)` with `shouldReply` as a parameter; `rd` is
what `conn.ReadFromUDP(buffer)` returns and `writeOk` whether
`conn.WriteToUDP` succeeds. -/
def handleUDPConnection (shouldReply : Bool) (rd : ReadResult) (writeOk : Bool)
    (s : Engine) : Engine :=
  let (buffer, s1) := bufferPoolGet s
  match rd with
  | ReadResult.err =>
    -- log.Fatal(err): print and os.Exit(1); nothing after it runs
    { s1 with log := s1.log ++ [LogEntry.fatal], proc := Proc.exited 1 }
  | ReadResult.ok payload src =>
    let (n, buffer) := readInto buffer payload
    let s2 := { s1 with bytesRecv := atomicAddInt64 s1.bytesRecv (n : Int) }
    let s3 := { s2 with msgsRecv := atomicAddInt64 s2.msgsRecv 1 }
    let s4 :=
      if shouldReply then
        -- conn.WriteToUDP(buffer, addr): the whole slice `buffer` is written
        if writeOk then { s3 with wire := s3.wire ++ [(some src, buffer)] }
        else { s3 with log := s3.log ++ [LogEntry.error] }
      else s3
    bufferPoolPut buffer s4

/-! ## Loops -/

/-- How the body of a Go `for { ... }` loop ends: it falls through to the
next iteration, or it executes `return`. -/
inductive Ctl
  /-- The body reached its end; the loop iterates again. -/
  | next
  /-- The body executed `return`. -/
  | ret
  deriving DecidableEq

/-- Status of a goroutine that runs a `for { ... }` loop. -/
inductive Goroutine
  /-- The goroutine is still inside its loop, waiting for the next event. -/
  | looping
  /-- The goroutine has returned from its function. -/
  | returned
  /-- The process ended (exit or panic) and took the goroutine with it. -/
  | dead
  deriving DecidableEq

/-- Go `for { body }` run over the events the environment supplies, one per
iteration: the loop ends only when the body returns or the process ends. -/
def forLoop {ε σ : Type} (alive : σ → Bool) (body : ε → σ → σ × Ctl) :
    List ε → σ → σ × Goroutine
  | [], s => if alive s then (s, Goroutine.looping) else (s, Goroutine.dead)
  | e :: rest, s =>
    if alive s then
      match body e s with
      | (s', Ctl.next) => forLoop alive body rest s'
      | (s', Ctl.ret) => (s', Goroutine.returned)
    else (s, Goroutine.dead)

/-- Whether the process is still running. -/
def Engine.alive (s : Engine) : Bool := decide (s.proc = Proc.running)

/-- The environment of one iteration of the receive loop. -/
structure RecvEvent where
  /-- What the read returns. -/
  read : ReadResult
  /-- Whether a reply write, if attempted, succeeds. -/
  writeOk : Bool
  deriving DecidableEq

/-- The loop `for { handleUDPConnection(ln) }` of `receiveCmd.Run`: its body
has no `return`; the loop is left only when `log.Fatal` ends the process. -/
def receiveLoop (shouldReply : Bool) (evs : List RecvEvent) (s : Engine) :
    Engine × Goroutine :=
  forLoop Engine.alive
    (fun e s => (handleUDPConnection shouldReply e.read e.writeOk s, Ctl.next)) evs s

/-- A datagram that is read successfully, and whether its reply write succeeds. -/
structure Datagram where
  /-- The bytes of the datagram. -/
  payload : List Byte
  /-- The address it came from. -/
  src : Addr
  /-- Whether the reply write for it, if attempted, succeeds. -/
  replyOk : Bool
  deriving DecidableEq

/-- The environment event of a successfully read datagram. -/
def Datagram.toEvent (d : Datagram) : RecvEvent :=
  { read := ReadResult.ok d.payload d.src, writeOk := d.replyOk }

/-- Sum of the payload lengths of a list of datagrams. -/
def totalBytes (ds : List Datagram) : Nat := (ds.map fun d => d.payload.length).sum


/-! ## `cmd/send.go`: the answer listener -/

/-- The body of the `for` loop of Go `listenAnswers(conn)`; `rd` is what
`conn.ReadFrom(buffer)` returns. Neither branch returns or breaks. -/
def listenAnswersBody (rd : ReadResult) (s : Engine) : Engine × Ctl :=
  let (buffer, s1) := bufferPoolGet s
  match rd with
  | ReadResult.err =>
    (bufferPoolPut buffer { s1 with log := s1.log ++ [LogEntry.error] }, Ctl.next)
  | ReadResult.ok payload _ =>
    (bufferPoolPut (readInto buffer payload).2
      { s1 with answersRecv := atomicAddInt64 s1.answersRecv 1 }, Ctl.next)

/-- Go `listenAnswers(conn)` run over the results of its successive reads. -/
def listenAnswers (reads : List ReadResult) (s : Engine) : Engine × Goroutine :=
  forLoop Engine.alive listenAnswersBody reads s

/-- The reads of a socket that has been closed: every one of them fails. -/
def closedSocketReads (n : Nat) : List ReadResult := List.replicate n ReadResult.err

/-! ## IEEE 754 binary64, as far as `send` uses it

`send` evaluates `(1/float64(rate))*1000`. For a nonzero `int` rate every
intermediate value is a normal binary64 number (magnitudes between `2^-63` and
`2^63`), so a value is kept as sign, significand and exponent and each
operation rounds the exact result to nearest, ties to even. -/

/-- Number of binary digits of `n`, found with at most `fuel` halvings. -/
def bitLenAux : Nat → Nat → Nat
  | 0, _ => 0
  | fuel + 1, n => if n = 0 then 0 else bitLenAux fuel (n / 2) + 1

/-- Number of binary digits of `n` (`0` for `0`). -/
def bitLen (n : Nat) : Nat := bitLenAux n n

/-- The integer nearest to `a / b`, ties to the even one. -/
def roundNearestEven (a b : Nat) : Nat :=
  let q := a / b
  let r := a % b
  if 2 * r < b then q
  else if b < 2 * r then q + 1
  else if q % 2 = 0 then q else q + 1

/-- The exponent `k` with `2^k ≤ a / b < 2^(k+1)`, for positive `a` and `b`. -/
def floorLog2 (a b : Nat) : Int :=
  let d : Int := (bitLen a : Int) - (bitLen b : Int)
  if 0 ≤ d then
    if b * 2 ^ d.toNat ≤ a then d else d - 1
  else
    if b ≤ a * 2 ^ (-d).toNat then d else d - 1

/-- The binary64 value nearest to the positive rational `a / b`, as a
53-bit significand `m` and an exponent `e`: the value is `m * 2^e`. -/
def roundBinary64 (a b : Nat) : Nat × Int :=
  let e := floorLog2 a b - 52
  if 0 ≤ e then (roundNearestEven a (b * 2 ^ e.toNat), e)
  else (roundNearestEven (a * 2 ^ (-e).toNat) b, e)

/-- A binary64 value: zero, an infinity, or `± m * 2^e`. -/
inductive F64
  /-- The value `+0`. -/
  | zero
  /-- The value `m * 2^e`, negated when `neg` is set. -/
  | finite (neg : Bool) (m : Nat) (e : Int)
  /-- The value `+Inf`, or `-Inf` when `neg` is set. -/
  | inf (neg : Bool)
  deriving DecidableEq

/-- Go `float64(i)` for an `int` value `i`. -/
def F64.ofInt (i : Int) : F64 :=
  if i = 0 then F64.zero
  else
    let r := roundBinary64 i.natAbs 1
    F64.finite (decide (i < 0)) r.1 r.2

/-- The binary64 nearest to `1 / (m * 2^e)`, for a positive significand `m`. -/
def recipMag (m : Nat) (e : Int) : Nat × Int :=
  if 0 ≤ e then roundBinary64 1 (m * 2 ^ e.toNat)
  else roundBinary64 (2 ^ (-e).toNat) m

/-- The binary64 nearest to `k * (m * 2^e)`, for positive `k` and `m`. -/
def mulMag (k m : Nat) (e : Int) : Nat × Int :=
  if 0 ≤ e then roundBinary64 (k * m * 2 ^ e.toNat) 1
  else roundBinary64 (k * m) (2 ^ (-e).toNat)

/-- Go `1 / x` on `float64`: division by zero gives `+Inf`, it does not panic. -/
def F64.recip : F64 → F64
  | F64.zero => F64.inf false
  | F64.inf _ => F64.zero
  | F64.finite neg m e => F64.finite neg (recipMag m e).1 (recipMag m e).2

/-- Go `x * k` on `float64` for a positive integer constant `k` that binary64
represents exactly (here `1000`). -/
def F64.mulConst (x : F64) (k : Nat) : F64 :=
  match x with
  | F64.zero => F64.zero
  | F64.inf neg => F64.inf neg
  | F64.finite neg m e => F64.finite neg (mulMag k m e).1 (mulMag k m e).2

/-- The target architecture: it fixes what a float to integer conversion
yields when the value does not fit, which Go leaves to the implementation. -/
inductive Arch
  /-- On amd64 `CVTTSD2SQ` yields `-2^63` for every value that does not fit. -/
  | amd64
  /-- On arm64 `FCVTZS` saturates to the nearest bound of `int64`. -/
  | arm64
  deriving DecidableEq

/-- The `int64` that the conversion of an out-of-range float yields. -/
def Arch.outOfRange (arch : Arch) (neg : Bool) : Int :=
  match arch with
  | Arch.amd64 => -(2 ^ 63)
  | Arch.arm64 => if neg then -(2 ^ 63) else 2 ^ 63 - 1

/-- The integer part of `m * 2^e`. -/
def truncMag (m : Nat) (e : Int) : Nat :=
  if 0 ≤ e then m * 2 ^ e.toNat else m / 2 ^ (-e).toNat

/-- Go `int64(x)` on a `float64` (`time.Duration(x)`): truncation toward zero. -/
def F64.toInt64 (arch : Arch) : F64 → Int
  | F64.zero => 0
  | F64.inf neg => arch.outOfRange neg
  | F64.finite neg m e =>
    let v : Int := if neg then -(truncMag m e : Int) else (truncMag m e : Int)
    if -(2 ^ 63) ≤ v ∧ v < 2 ^ 63 then v else arch.outOfRange neg

/-! ## `cmd/send.go`: the sender -/

/-- The flags of the `send` command. -/
structure SendConfig where
  /-- Flag `--clients`. -/
  numClients : Int
  /-- Flag `--rate`. -/
  rate : Int
  /-- Flag `--packetSize`. -/
  packetSize : Int
  /-- Flag `--shouldListenForAnswers`. -/
  shouldListenForAnswers : Bool
  deriving DecidableEq

/-- The defaults that `init` registers for the flags of `send`. -/
def SendConfig.default : SendConfig :=
  { numClients := 1, rate := 10, packetSize := 50, shouldListenForAnswers := false }

/-- The largest size in bytes the Go runtime accepts for one allocation on
the 64-bit targets (`maxAlloc`, 48 address bits). -/
def maxAlloc : Int := 2 ^ 48

/-- Go `make([]byte, n)`: `makeslice` panics with `len out of range` for a
negative length and for a length above `maxAlloc`; otherwise the slice holds
`n` zero bytes. -/
def makeBytes (n : Int) : Except Panic (List Byte) :=
  if n < 0 ∨ maxAlloc < n then Except.error Panic.makesliceLenOutOfRange
  else Except.ok (List.replicate n.toNat 0)

/-- The value of `time.Duration((1/float64(rate))*1000)`: the tick period in
milliseconds that `send` derives from the rate. -/
def tickPeriodMs (arch : Arch) (rate : Int) : Int :=
  F64.toInt64 arch (((F64.ofInt rate).recip).mulConst 1000)

/-- The argument of `time.NewTicker` in `send`, in nanoseconds:
`time.Duration(...) * time.Millisecond`, an `int64` product. -/
def tickerDuration (arch : Arch) (rate : Int) : Int :=
  wrapInt64 (tickPeriodMs arch rate * 1000000)

/-- Go `time.NewTicker(d)`: it panics unless `d` is strictly positive. -/
def newTicker (d : Int) : Except Panic Int :=
  if d ≤ 0 then Except.error (Panic.nonPositiveTickerInterval d) else Except.ok d

/-- The local state of one `send` goroutine. -/
structure Sender where
  /-- The payload `message`. -/
  message : List Byte
  /-- Whether `go listenAnswers(conn)` has been executed on the socket. -/
  listenerStarted : Bool
  /-- The period, in nanoseconds, of the ticker once it is constructed. -/
  ticker : Option Int
  /-- Whether the socket `conn` is open. -/
  connOpen : Bool
  deriving DecidableEq

/-- A sender that has not executed anything yet. -/
def Sender.fresh : Sender :=
  { message := [], listenerStarted := false, ticker := none, connOpen := false }

/-- Go `send()` from its first statement up to the construction of the ticker;
`dialOk` is whether `net.DialUDP` succeeds. -/
def sendStart (arch : Arch) (cfg : SendConfig) (dialOk : Bool) (s : Engine) :
    Engine × Sender :=
  -- message := make([]byte, packetSize)
  match makeBytes cfg.packetSize with
  | Except.error p => ({ s with proc := Proc.panicked p }, Sender.fresh)
  | Except.ok message =>
    -- if err != nil { log.Fatal(err) }
    if !dialOk then
      ({ s with log := s.log ++ [LogEntry.fatal], proc := Proc.exited 1 },
        { Sender.fresh with message := message })
    else
      -- defer conn.Close(); go listenAnswers(conn)
      let w : Sender :=
        { message := message, listenerStarted := true, ticker := none, connOpen := true }
      -- ticker := time.NewTicker(...)
      match newTicker (tickerDuration arch cfg.rate) with
      | Except.error p => ({ s with proc := Proc.panicked p }, { w with connOpen := false })
      | Except.ok d => (s, { w with ticker := some d })

/-- What the `select` of the send loop receives. -/
inductive SendEvent
  /-- A value arrives on `done`. -/
  | done
  /-- The ticker fires; `writeOk` is whether `conn.Write(message)` succeeds. -/
  | tick (writeOk : Bool)
  deriving DecidableEq

/-- The body of the `for` loop of `send`. -/
def sendBody (ev : SendEvent) (st : Engine × Sender) : (Engine × Sender) × Ctl :=
  let (s, w) := st
  match ev with
  | SendEvent.done =>
    -- log.Println("exiting send routine..."); return (the deferred Close runs)
    (({ s with log := s.log ++ [LogEntry.exitingSend] }, { w with connOpen := false }), Ctl.ret)
  | SendEvent.tick writeOk =>
    if writeOk then
      (({ s with wire := s.wire ++ [(none, w.message)], sent := atomicAddInt64 s.sent 1 }, w),
        Ctl.next)
    else
      (({ s with log := s.log ++ [LogEntry.sendError] }, w), Ctl.next)

/-- The `for` loop of `send`, run over the events its `select` receives. -/
def sendLoop (evs : List SendEvent) (st : Engine × Sender) : (Engine × Sender) × Goroutine :=
  forLoop (fun st => st.1.alive) sendBody evs st

/-! ## The stats reporters (`printStats`, `printRecvStats`) -/

/-- Which reporter runs: `printStats` reports `sent` and `answersRecv`,
`printRecvStats` reports `msgsRecv` and `bytesRecv`. -/
inductive StatsMode
  /-- Go `printStats` of `cmd/send.go`. -/
  | send
  /-- Go `printRecvStats` of `cmd/receive.go`. -/
  | receive
  deriving DecidableEq

/-- Where a reporter stands inside the `case <-ticker.C` branch. Each
constructor is the point before one atomic step of the branch. -/
inductive Reporter
  /-- In `select`, before the arguments of `log.Printf` are evaluated. -/
  | waiting
  /-- The first argument has been loaded, the second not yet. -/
  | loadedFirst (a : Int)
  /-- Both arguments have been loaded; the line is not printed yet. -/
  | loadedBoth (a b : Int)
  /-- The line is printed; `atomic.SwapInt64` on the first counter is next. -/
  | printed
  /-- The first counter is reset; `atomic.SwapInt64` on the second is next. -/
  | resetFirst
  deriving DecidableEq

/-- One atomic step of the reporter: the plain loads of the two counters
that `log.Printf` is given, the print, then the two `atomic.SwapInt64(&c, 0)`
whose results are dropped. -/
def reporterStep (mode : StatsMode) (st : Engine × Reporter) : Engine × Reporter :=
  let (s, r) := st
  match mode, r with
  | StatsMode.send, Reporter.waiting => (s, Reporter.loadedFirst s.sent)
  | StatsMode.send, Reporter.loadedFirst a => (s, Reporter.loadedBoth a s.answersRecv)
  | StatsMode.send, Reporter.loadedBoth a b =>
    ({ s with log := s.log ++ [LogEntry.sendStats a b] }, Reporter.printed)
  | StatsMode.send, Reporter.printed => ({ s with sent := 0 }, Reporter.resetFirst)
  | StatsMode.send, Reporter.resetFirst => ({ s with answersRecv := 0 }, Reporter.waiting)
  | StatsMode.receive, Reporter.waiting => (s, Reporter.loadedFirst s.msgsRecv)
  | StatsMode.receive, Reporter.loadedFirst a => (s, Reporter.loadedBoth a s.bytesRecv)
  | StatsMode.receive, Reporter.loadedBoth a b =>
    ({ s with log := s.log ++ [LogEntry.recvStats a b] }, Reporter.printed)
  | StatsMode.receive, Reporter.printed => ({ s with msgsRecv := 0 }, Reporter.resetFirst)
  | StatsMode.receive, Reporter.resetFirst => ({ s with bytesRecv := 0 }, Reporter.waiting)

/-- One atomic step of the system of a reporter and the workers. -/
inductive Action
  /-- The reporter performs its next atomic step. -/
  | reporter
  /-- A sender performs `atomic.AddInt64(&sent, 1)`. -/
  | addSent
  /-- An answer listener performs `atomic.AddInt64(&answersRecv, 1)`. -/
  | addAnswers
  /-- The receiver performs `atomic.AddInt64(&bytesRecv, int64(n))`. -/
  | addBytes (n : Nat)
  /-- The receiver performs `atomic.AddInt64(&msgsRecv, 1)`. -/
  | addMsgs
  deriving DecidableEq

/-- The effect of one action. -/
def stepAction (mode : StatsMode) (a : Action) (st : Engine × Reporter) : Engine × Reporter :=
  match a with
  | Action.reporter => reporterStep mode st
  | Action.addSent => ({ st.1 with sent := atomicAddInt64 st.1.sent 1 }, st.2)
  | Action.addAnswers => ({ st.1 with answersRecv := atomicAddInt64 st.1.answersRecv 1 }, st.2)
  | Action.addBytes n => ({ st.1 with bytesRecv := atomicAddInt64 st.1.bytesRecv (n : Int) }, st.2)
  | Action.addMsgs => ({ st.1 with msgsRecv := atomicAddInt64 st.1.msgsRecv 1 }, st.2)

/-- An interleaving: the actions in the order in which they take effect. -/
def runActions (mode : StatsMode) (acts : List Action) (st : Engine × Reporter) :
    Engine × Reporter :=
  acts.foldl (fun st a => stepAction mode a st) st

/-- The sum of the values that the lines of `printStats` reported for `sent`. -/
def reportedSent (log : List LogEntry) : Int :=
  (log.map fun l => match l with
    | LogEntry.sendStats a _ => a
    | _ => 0).sum

/-- The sum of the values that the lines of `printRecvStats` reported for `msgsRecv`. -/
def reportedMsgs (log : List LogEntry) : Int :=
  (log.map fun l => match l with
    | LogEntry.recvStats a _ => a
    | _ => 0).sum

/-- The number of increments of `sent` issued in an interleaving. -/
def issuedSent (acts : List Action) : Int := (acts.count Action.addSent : Int)

/-- The number of increments of `msgsRecv` issued in an interleaving. -/
def issuedMsgs (acts : List Action) : Int := (acts.count Action.addMsgs : Int)

/-- A reporter tick of `printStats` during which three sends complete between
the load of `sent` and its reset. -/
def lossySchedule : List Action :=
  [Action.reporter, Action.reporter, Action.addSent, Action.addSent, Action.addSent,
   Action.reporter, Action.reporter, Action.reporter]

/-- The same schedule for `printRecvStats`: three datagrams are counted
between the load of `msgsRecv` and its reset. -/
def lossyRecvSchedule : List Action :=
  [Action.reporter, Action.reporter, Action.addMsgs, Action.addMsgs, Action.addMsgs,
   Action.reporter, Action.reporter, Action.reporter]

/-! ## Auxiliary notions used in the statements -/

/-- Every buffer held by the pool has the capacity the pool allocates. -/
def Engine.poolOk (s : Engine) : Prop := ∀ b ∈ s.idle, b.length = bufferSize

/-- The magnitude, as significand and exponent, of the binary64 value of
`(1/float64(n))*1000` for a positive `n`. -/
def periodMag (n : Nat) : Nat × Int :=
  let x := roundBinary64 n 1
  let y := recipMag x.1 x.2
  mulMag 1000 y.1 y.2

/-- Whether `tickPeriodMs` is exactly `1000 / r` for every rate `r` from 1 to
`n` that divides 1000 (the rates whose exact period is a whole number). -/
def periodTableOk (n : Nat) : Bool :=
  (List.range n).all fun r =>
    (1000 % (r + 1) != 0) ||
      decide (tickPeriodMs Arch.amd64 ((r : Int) + 1) = 1000 / ((r : Int) + 1))

/-! ## Basic facts -/

theorem wrapInt64_of_range (x : Int) (h1 : -(2 ^ 63) ≤ x) (h2 : x < 2 ^ 63) :
    wrapInt64 x = x := by
  unfold wrapInt64
  omega

theorem readInto_length (buffer payload : List Byte) :
    (readInto buffer payload).2.length = buffer.length := by
  simp only [readInto, List.length_append, List.length_take, List.length_drop]
  omega

theorem readInto_count (buffer payload : List Byte) (h : payload.length ≤ buffer.length) :
    (readInto buffer payload).1 = payload.length := by
  simp only [readInto]
  omega

theorem bufferPoolGet_length (s : Engine) (h : s.poolOk) :
    (bufferPoolGet s).1.length = bufferSize := by
  unfold bufferPoolGet
  cases hi : s.idle with
  | nil => simp [newBuffer]
  | cons b rest =>
    simp only
    exact h b (by rw [hi]; exact List.mem_cons_self _ _)

theorem bufferPoolGet_idle_subset (s : Engine) :
    ∀ b ∈ (bufferPoolGet s).2.idle, b ∈ s.idle := by
  unfold bufferPoolGet
  cases hi : s.idle with
  | nil => intro b hb; simp [hi] at hb
  | cons b rest => intro c hc; simp only at hc; exact List.mem_cons_of_mem _ hc

/-- The state after a successful read, field by field. -/
theorem handleUDPConnection_ok (shouldReply : Bool) (payload : List Byte) (src : Addr)
    (writeOk : Bool) (s : Engine) :
    let s' := handleUDPConnection shouldReply (ReadResult.ok payload src) writeOk s
    s'.msgsRecv = atomicAddInt64 s.msgsRecv 1 ∧
    s'.bytesRecv = atomicAddInt64 s.bytesRecv ((readInto (bufferPoolGet s).1 payload).1 : Int) ∧
    s'.sent = s.sent ∧ s'.answersRecv = s.answersRecv ∧ s'.proc = s.proc ∧
    s'.idle = (readInto (bufferPoolGet s).1 payload).2 :: (bufferPoolGet s).2.idle ∧
    s'.checkedOut = s.checkedOut ∧ s'.gets = s.gets + 1 ∧ s'.puts = s.puts + 1 := by
  unfold handleUDPConnection bufferPoolGet
  cases s.idle <;> cases shouldReply <;> cases writeOk <;> simp [bufferPoolPut]

theorem handleUDPConnection_poolOk (shouldReply : Bool) (payload : List Byte) (src : Addr)
    (writeOk : Bool) (s : Engine) (h : s.poolOk) :
    (handleUDPConnection shouldReply (ReadResult.ok payload src) writeOk s).poolOk := by
  have hs := handleUDPConnection_ok shouldReply payload src writeOk s
  simp only at hs
  intro b hb
  rw [hs.2.2.2.2.2.1] at hb
  rcases List.mem_cons.1 hb with hb | hb
  · rw [hb, readInto_length]; exact bufferPoolGet_length s h
  · exact h b (bufferPoolGet_idle_subset s b hb)

theorem totalBytes_cons (d : Datagram) (ds : List Datagram) :
    totalBytes (d :: ds) = d.payload.length + totalBytes ds := by
  simp [totalBytes]

theorem totalBytes_le (ds : List Datagram) (h : ∀ d ∈ ds, d.payload.length ≤ bufferSize) :
    totalBytes ds ≤ ds.length * bufferSize := by
  induction ds with
  | nil => simp [totalBytes]
  | cons d ds ih =>
    rw [totalBytes_cons, List.length_cons]
    have h1 := h d (List.mem_cons_self _ _)
    have h2 := ih (fun x hx => h x (List.mem_cons_of_mem _ hx))
    have : (ds.length + 1) * bufferSize = ds.length * bufferSize + bufferSize := by ring
    omega

/-- The receive loop over successfully read datagrams, from any state whose
counters are non-negative and far enough from the top of `int64`. -/
theorem receiveLoop_counts_aux (shouldReply : Bool) (ds : List Datagram) :
    ∀ s : Engine, s.proc = Proc.running → s.poolOk →
      (∀ d ∈ ds, d.payload.length ≤ bufferSize) →
      0 ≤ s.msgsRecv → 0 ≤ s.bytesRecv →
      s.msgsRecv + ds.length < 2 ^ 63 → s.bytesRecv + totalBytes ds < 2 ^ 63 →
      (receiveLoop shouldReply (ds.map Datagram.toEvent) s).1.msgsRecv
          = s.msgsRecv + ds.length ∧
      (receiveLoop shouldReply (ds.map Datagram.toEvent) s).1.bytesRecv
          = s.bytesRecv + totalBytes ds ∧
      (receiveLoop shouldReply (ds.map Datagram.toEvent) s).2 = Goroutine.looping := by
  induction ds with
  | nil =>
    intro s hp _ _ _ _ _ _
    simp [receiveLoop, forLoop, Engine.alive, hp, totalBytes]
  | cons d ds ih =>
    intro s hp hpool hlen hm hb hmr hbr
    have hs := handleUDPConnection_ok shouldReply d.payload d.src d.replyOk s
    simp only at hs
    obtain ⟨h1, h2, -, -, h5, -⟩ := hs
    have hd : d.payload.length ≤ bufferSize := hlen d (List.mem_cons_self _ _)
    have hcount : (readInto (bufferPoolGet s).1 d.payload).1 = d.payload.length :=
      readInto_count _ _ (by rw [bufferPoolGet_length s hpool]; exact hd)
    rw [totalBytes_cons] at hbr
    rw [List.length_cons] at hmr
    push_cast at hmr hbr
    have hm' : (handleUDPConnection shouldReply (ReadResult.ok d.payload d.src) d.replyOk
        s).msgsRecv = s.msgsRecv + 1 := by
      rw [h1, atomicAddInt64, wrapInt64_of_range] <;> omega
    have hb' : (handleUDPConnection shouldReply (ReadResult.ok d.payload d.src) d.replyOk
        s).bytesRecv = s.bytesRecv + d.payload.length := by
      rw [h2, hcount, atomicAddInt64, wrapInt64_of_range] <;> omega
    have ih' := ih (handleUDPConnection shouldReply (ReadResult.ok d.payload d.src) d.replyOk s)
      (by rw [h5]; exact hp)
      (handleUDPConnection_poolOk shouldReply d.payload d.src d.replyOk s hpool)
      (fun x hx => hlen x (List.mem_cons_of_mem _ hx))
      (by rw [hm']; omega) (by rw [hb']; omega)
      (by rw [hm']; omega) (by rw [hb']; omega)
    have hstep : receiveLoop shouldReply ((d :: ds).map Datagram.toEvent) s
        = receiveLoop shouldReply (ds.map Datagram.toEvent)
            (handleUDPConnection shouldReply (ReadResult.ok d.payload d.src) d.replyOk s) := by
      simp [receiveLoop, forLoop, Engine.alive, hp, Datagram.toEvent]
    rw [hstep, ih'.1, ih'.2.1, ih'.2.2, hm', hb', totalBytes_cons, List.length_cons]
    push_cast
    refine ⟨by ring, by ring, rfl⟩

/-! ## C1: receiver loop counting -/

/-- C1. Receiver loop counting: for every finite sequence of successfully read
datagrams whose lengths are at most 2048, starting from zeroed counters (and a
pool of 2048-byte buffers), running `handleUDPConnection` once per datagram
leaves `msgsRecv` equal to the number of datagrams and `bytesRecv` equal to the
sum of their lengths, with reply mode on or off and whatever the reply writes
do; the loop is still running afterwards. The totals are taken within the
range of the `int64` counters. -/
theorem receive_counts (shouldReply : Bool) (ds : List Datagram) (s : Engine)
    (hproc : s.proc = Proc.running) (hpool : s.poolOk)
    (hmsgs : s.msgsRecv = 0) (hbytes : s.bytesRecv = 0)
    (hlen : ∀ d ∈ ds, d.payload.length ≤ 2048)
    (hrange : ds.length * 2048 < 2 ^ 63) :
    (receiveLoop shouldReply (ds.map Datagram.toEvent) s).1.msgsRecv = ds.length ∧
    (receiveLoop shouldReply (ds.map Datagram.toEvent) s).1.bytesRecv = totalBytes ds ∧
    (receiveLoop shouldReply (ds.map Datagram.toEvent) s).2 = Goroutine.looping := by
  have htot := totalBytes_le ds hlen
  have hb : bufferSize = 2048 := rfl
  rw [hb] at htot
  have hl : (ds.length : Int) < 2 ^ 63 := by
    have : ds.length ≤ ds.length * 2048 := by omega
    have h3 : ds.length < 2 ^ 63 := lt_of_le_of_lt this hrange
    exact_mod_cast h3
  have ht : (totalBytes ds : Int) < 2 ^ 63 := by
    have h3 : totalBytes ds < 2 ^ 63 := lt_of_le_of_lt htot hrange
    exact_mod_cast h3
  have := receiveLoop_counts_aux shouldReply ds s hproc hpool hlen
    (by rw [hmsgs]) (by rw [hbytes]) (by rw [hmsgs]; simpa using hl)
    (by rw [hbytes]; simpa using ht)
  rw [hmsgs, hbytes] at this
  simpa using this

/-- Scenario A: 100 datagrams of 64 bytes, reply disabled, give 100 and 6400. -/
theorem receive_counts_scenarioA :
    (receiveLoop false ((List.replicate 100
        ({ payload := List.replicate 64 0, src := 1, replyOk := true } : Datagram)).map
        Datagram.toEvent) Engine.init).1.msgsRecv = 100 ∧
    (receiveLoop false ((List.replicate 100
        ({ payload := List.replicate 64 0, src := 1, replyOk := true } : Datagram)).map
        Datagram.toEvent) Engine.init).1.bytesRecv = 6400 := by
  have h := receive_counts false
    (List.replicate 100 ({ payload := List.replicate 64 0, src := 1, replyOk := true } : Datagram))
    Engine.init rfl (by intro b hb; simp [Engine.init] at hb) rfl rfl
    (by
      intro d hd
      rw [List.eq_of_mem_replicate hd]
      simp)
    (by simp)
  have ht : totalBytes (List.replicate 100
      ({ payload := List.replicate 64 0, src := 1, replyOk := true } : Datagram)) = 6400 := by
    simp [totalBytes]
  rw [ht] at h
  simpa using And.intro h.1 h.2.1

/-! ## C2: what the reply write is given -/

/-- With reply mode on, the payload handed to `WriteToUDP` is the pooled
buffer as a whole: it always has the capacity of the buffer. -/
theorem reply_length (payload : List Byte) (src : Addr) (s : Engine) (h : s.poolOk) :
    (handleUDPConnection true (ReadResult.ok payload src) true s).wire
      = s.wire ++ [(some src, (readInto (bufferPoolGet s).1 payload).2)] ∧
    (readInto (bufferPoolGet s).1 payload).2.length = bufferSize := by
  refine ⟨?_, by rw [readInto_length]; exact bufferPoolGet_length s h⟩
  unfold handleUDPConnection bufferPoolGet
  cases s.idle <;> simp [bufferPoolPut]

/-- C2. Echo contract, evaluated on the code: a 20-byte datagram read with
reply mode enabled is answered with the whole 2048-byte pooled buffer (the 20
bytes read followed by the 2028 bytes the buffer held before), not with the
20 bytes that were read. -/
theorem echo_writes_whole_buffer :
    (handleUDPConnection true (ReadResult.ok (List.replicate 20 7) 9) true Engine.init).wire
      = [(some 9, List.replicate 20 7 ++ List.replicate 2028 0)] ∧
    (List.replicate 20 (7 : Byte) ++ List.replicate 2028 0).length = 2048 ∧
    (List.replicate 20 (7 : Byte) ++ List.replicate 2028 0) ≠ List.replicate 20 7 := by
  have hlen : (List.replicate 20 (7 : Byte) ++ List.replicate 2028 0).length = 2048 := by
    rw [List.length_append, List.length_replicate, List.length_replicate]
  refine ⟨?_, hlen, ?_⟩
  · rw [(reply_length (List.replicate 20 7) 9 Engine.init (by intro b hb; cases hb)).1]
    have hr : (readInto (bufferPoolGet Engine.init).1 (List.replicate 20 (7 : Byte))).2
        = List.replicate 20 7 ++ List.replicate 2028 0 := by
      show List.take (min (List.replicate 20 (7 : Byte)).length
          (List.replicate 2048 (0 : Byte)).length) (List.replicate 20 (7 : Byte))
        ++ List.drop (min (List.replicate 20 (7 : Byte)).length
          (List.replicate 2048 (0 : Byte)).length) (List.replicate 2048 (0 : Byte)) = _
      rw [List.length_replicate, List.length_replicate, List.take_replicate,
        List.drop_replicate]
      have h1 : min (min 20 2048) 20 = 20 := by decide
      have h2 : 2048 - min 20 2048 = 2028 := by decide
      rw [h1, h2]
    rw [hr]
    rfl
  · intro h
    have h2 := congrArg List.length h
    rw [hlen, List.length_replicate] at h2
    omega

/-! ## C3: sender worker counting -/

theorem sendLoop_nil (s : Engine) (w : Sender) (hp : s.proc = Proc.running) :
    sendLoop [] (s, w) = ((s, w), Goroutine.looping) := by
  simp [sendLoop, forLoop, Engine.alive, hp]

theorem sendLoop_tick (ok : Bool) (evs : List SendEvent) (s : Engine) (w : Sender)
    (hp : s.proc = Proc.running) :
    sendLoop (SendEvent.tick ok :: evs) (s, w)
      = sendLoop evs (sendBody (SendEvent.tick ok) (s, w)).1 := by
  cases ok <;> simp [sendLoop, forLoop, Engine.alive, hp, sendBody]

theorem sendLoop_counts_aux (outcomes : List Bool) :
    ∀ (s : Engine) (w : Sender), s.proc = Proc.running → -(2 ^ 63) ≤ s.sent →
      s.sent + (outcomes.count true : Int) < 2 ^ 63 →
      (sendLoop (outcomes.map SendEvent.tick) (s, w)).2 = Goroutine.looping ∧
      (sendLoop (outcomes.map SendEvent.tick) (s, w)).1.1.sent
        = s.sent + (outcomes.count true : Int) ∧
      (sendLoop (outcomes.map SendEvent.tick) (s, w)).1.1.answersRecv = s.answersRecv ∧
      (sendLoop (outcomes.map SendEvent.tick) (s, w)).1.1.msgsRecv = s.msgsRecv ∧
      (sendLoop (outcomes.map SendEvent.tick) (s, w)).1.1.bytesRecv = s.bytesRecv ∧
      (sendLoop (outcomes.map SendEvent.tick) (s, w)).1.1.proc = Proc.running ∧
      (sendLoop (outcomes.map SendEvent.tick) (s, w)).1.2 = w := by
  induction outcomes with
  | nil =>
    intro s w hp _ _
    rw [List.map_nil, sendLoop_nil s w hp]
    simp [hp]
  | cons o os ih =>
    intro s w hp hlo hhi
    rw [List.map_cons, sendLoop_tick o _ s w hp]
    cases o with
    | false =>
      have hc : (false :: os).count true = os.count true := by simp
      rw [hc] at hhi
      have := ih { s with log := s.log ++ [LogEntry.sendError] } w hp hlo hhi
      simpa [sendBody, hc] using this
    | true =>
      have hc : (true :: os).count true = os.count true + 1 := by simp
      rw [hc] at hhi
      push_cast at hhi
      have hw : atomicAddInt64 s.sent 1 = s.sent + 1 := by
        rw [atomicAddInt64, wrapInt64_of_range] <;> omega
      have := ih { s with wire := s.wire ++ [(none, w.message)], sent := atomicAddInt64 s.sent 1 }
        w hp (by simp only; rw [hw]; omega) (by simp only; rw [hw]; omega)
      simp only [sendBody, if_true, hc] at this ⊢
      rw [hw] at this ⊢
      push_cast
      refine ⟨this.1, ?_, this.2.2⟩
      rw [this.2.1]; ring

/-- C3. Sender worker counting: for every finite sequence of tick outcomes
processed by the send loop (no reporter reset in between, `sent` staying in the
range of `int64`), `sent` grows by exactly the number of successful writes,
the other counters are unchanged, and the worker is still in its loop; a tick
whose write fails only logs a line: it changes no counter and the loop goes on
to the next tick. -/
theorem send_counts (outcomes : List Bool) (s : Engine) (w : Sender)
    (hproc : s.proc = Proc.running) (hlo : -(2 ^ 63) ≤ s.sent)
    (hhi : s.sent + (outcomes.count true : Int) < 2 ^ 63) :
    (sendLoop (outcomes.map SendEvent.tick) (s, w)).2 = Goroutine.looping ∧
    (sendLoop (outcomes.map SendEvent.tick) (s, w)).1.1.sent
      = s.sent + (outcomes.count true : Int) ∧
    (sendLoop (outcomes.map SendEvent.tick) (s, w)).1.1.answersRecv = s.answersRecv ∧
    (sendLoop (outcomes.map SendEvent.tick) (s, w)).1.1.msgsRecv = s.msgsRecv ∧
    (sendLoop (outcomes.map SendEvent.tick) (s, w)).1.1.bytesRecv = s.bytesRecv ∧
    (sendLoop (outcomes.map SendEvent.tick) (s, w)).1.1.proc = Proc.running ∧
    sendBody (SendEvent.tick false) (s, w)
      = (({ s with log := s.log ++ [LogEntry.sendError] }, w), Ctl.next) ∧
    ∀ rest : List SendEvent, sendLoop (SendEvent.tick false :: rest) (s, w)
      = sendLoop rest ({ s with log := s.log ++ [LogEntry.sendError] }, w) := by
  have h := sendLoop_counts_aux outcomes s w hproc hlo hhi
  refine ⟨h.1, h.2.1, h.2.2.1, h.2.2.2.1, h.2.2.2.2.1, h.2.2.2.2.2.1, ?_, ?_⟩
  · simp [sendBody]
  · intro rest
    rw [sendLoop_tick false rest s w hproc]
    simp [sendBody]

/-- Five ticks of which the second and the fourth fail: `sent` ends at 3. -/
theorem send_counts_example :
    (sendLoop ([true, false, true, false, true].map SendEvent.tick)
      (Engine.init, Sender.fresh)).1.1.sent = 3 ∧
    (sendLoop ([true, false, true, false, true].map SendEvent.tick)
      (Engine.init, Sender.fresh)).2 = Goroutine.looping := by
  have h := send_counts [true, false, true, false, true] Engine.init Sender.fresh rfl
    (by simp [Engine.init]) (by simp [Engine.init])
  refine ⟨?_, h.1⟩
  rw [h.2.1]
  simp [Engine.init]

/-! ## C4: the reporter's capture and reset -/

/-- C4. Capture-and-reset, evaluated on the code: `printStats` prints a value
of `sent` that it loaded before its `atomic.SwapInt64(&sent, 0)` and drops what
the swap returns. In the interleaving `lossySchedule` three increments take
effect between the load and the swap: the tick reports 0, the swap removes 3,
and afterwards reported sum plus counter is 0 while 3 increments were issued.
The same holds for `printRecvStats` and `msgsRecv`. -/
theorem reporter_loses_increments :
    (runActions StatsMode.send lossySchedule (Engine.init, Reporter.waiting)).1.log
      = [LogEntry.sendStats 0 0] ∧
    (runActions StatsMode.send lossySchedule (Engine.init, Reporter.waiting)).1.sent = 0 ∧
    (runActions StatsMode.send lossySchedule (Engine.init, Reporter.waiting)).2
      = Reporter.waiting ∧
    issuedSent lossySchedule = 3 ∧
    reportedSent (runActions StatsMode.send lossySchedule (Engine.init, Reporter.waiting)).1.log
      + (runActions StatsMode.send lossySchedule (Engine.init, Reporter.waiting)).1.sent = 0 ∧
    (runActions StatsMode.send (lossySchedule.take 6) (Engine.init, Reporter.waiting)).1.sent
      = 3 ∧
    (runActions StatsMode.receive lossyRecvSchedule (Engine.init, Reporter.waiting)).1.log
      = [LogEntry.recvStats 0 0] ∧
    (runActions StatsMode.receive lossyRecvSchedule (Engine.init, Reporter.waiting)).1.msgsRecv
      = 0 ∧
    issuedMsgs lossyRecvSchedule = 3 ∧
    reportedMsgs
        (runActions StatsMode.receive lossyRecvSchedule (Engine.init, Reporter.waiting)).1.log
      + (runActions StatsMode.receive lossyRecvSchedule
          (Engine.init, Reporter.waiting)).1.msgsRecv = 0 := by
  decide

/-! ## C7: buffer pool balance -/

/-- The state after one iteration of `listenAnswers`, field by field. -/
theorem listenAnswersBody_fields (rd : ReadResult) (s : Engine) :
    (listenAnswersBody rd s).2 = Ctl.next ∧
    (listenAnswersBody rd s).1.checkedOut = s.checkedOut ∧
    (listenAnswersBody rd s).1.gets = s.gets + 1 ∧
    (listenAnswersBody rd s).1.puts = s.puts + 1 ∧
    (listenAnswersBody rd s).1.proc = s.proc ∧
    (listenAnswersBody rd s).1.sent = s.sent ∧
    (listenAnswersBody rd s).1.msgsRecv = s.msgsRecv ∧
    (listenAnswersBody rd s).1.bytesRecv = s.bytesRecv ∧
    (listenAnswersBody rd s).1.idle.length = (bufferPoolGet s).2.idle.length + 1 := by
  unfold listenAnswersBody bufferPoolGet
  cases s.idle <;> cases rd <;> simp [bufferPoolPut]

/-- A failed read in `listenAnswers` logs one line and leaves `answersRecv` alone. -/
theorem listenAnswersBody_err (s : Engine) :
    (listenAnswersBody ReadResult.err s).1.answersRecv = s.answersRecv ∧
    (listenAnswersBody ReadResult.err s).1.log = s.log ++ [LogEntry.error] ∧
    (listenAnswersBody ReadResult.err s).1.idle = (bufferPoolGet s).1 :: (bufferPoolGet s).2.idle
    := by
  unfold listenAnswersBody bufferPoolGet
  cases s.idle <;> simp [bufferPoolPut]

/-- A successful read in `listenAnswers` hands back the buffer it obtained,
filled by the read. -/
theorem listenAnswersBody_ok_idle (payload : List Byte) (src : Addr) (s : Engine) :
    (listenAnswersBody (ReadResult.ok payload src) s).1.idle
      = (readInto (bufferPoolGet s).1 payload).2 :: (bufferPoolGet s).2.idle := by
  unfold listenAnswersBody bufferPoolGet
  cases s.idle <;> simp [bufferPoolPut]

/-- C7, as stated, fails on the failed-read path of `handleUDPConnection`:
the buffer obtained from the pool is never handed back, so one more buffer is
checked out after the iteration than before it (one `Get`, no `Put`). -/
theorem pool_unbalanced_on_failed_read :
    (handleUDPConnection false ReadResult.err true Engine.init).checkedOut
      = Engine.init.checkedOut + 1 ∧
    (handleUDPConnection false ReadResult.err true Engine.init).gets = 1 ∧
    (handleUDPConnection false ReadResult.err true Engine.init).puts = 0 ∧
    (handleUDPConnection false ReadResult.err true Engine.init).checkedOut
      ≠ Engine.init.checkedOut := by
  decide

/-- C7, amended. Every iteration of `listenAnswers` (successful or failed
read) and every iteration of `handleUDPConnection` whose read succeeds (reply
mode on or off, reply write successful or failed) calls `Get` once and `Put`
once, and what it hands to `Put` is the very buffer `Get` returned (filled by
the read when there was one), so the number of checked-out buffers is the same
after the iteration as before. When the read of `handleUDPConnection` fails,
`log.Fatal` ends the process with that buffer still checked out: it is not
back in the pool. -/
theorem pool_balance_amended (s : Engine) :
    ((listenAnswersBody ReadResult.err s).1.checkedOut = s.checkedOut ∧
      (listenAnswersBody ReadResult.err s).1.gets = s.gets + 1 ∧
      (listenAnswersBody ReadResult.err s).1.puts = s.puts + 1 ∧
      (listenAnswersBody ReadResult.err s).1.idle
        = (bufferPoolGet s).1 :: (bufferPoolGet s).2.idle) ∧
    (∀ (payload : List Byte) (src : Addr),
      (listenAnswersBody (ReadResult.ok payload src) s).1.checkedOut = s.checkedOut ∧
      (listenAnswersBody (ReadResult.ok payload src) s).1.gets = s.gets + 1 ∧
      (listenAnswersBody (ReadResult.ok payload src) s).1.puts = s.puts + 1 ∧
      (listenAnswersBody (ReadResult.ok payload src) s).1.idle
        = (readInto (bufferPoolGet s).1 payload).2 :: (bufferPoolGet s).2.idle) ∧
    (∀ (shouldReply writeOk : Bool) (payload : List Byte) (src : Addr),
      (handleUDPConnection shouldReply (ReadResult.ok payload src) writeOk s).checkedOut
        = s.checkedOut ∧
      (handleUDPConnection shouldReply (ReadResult.ok payload src) writeOk s).gets
        = s.gets + 1 ∧
      (handleUDPConnection shouldReply (ReadResult.ok payload src) writeOk s).puts
        = s.puts + 1 ∧
      (handleUDPConnection shouldReply (ReadResult.ok payload src) writeOk s).idle
        = (readInto (bufferPoolGet s).1 payload).2 :: (bufferPoolGet s).2.idle) ∧
    (∀ shouldReply writeOk : Bool,
      (handleUDPConnection shouldReply ReadResult.err writeOk s).proc = Proc.exited 1 ∧
      (handleUDPConnection shouldReply ReadResult.err writeOk s).checkedOut
        = s.checkedOut + 1 ∧
      (handleUDPConnection shouldReply ReadResult.err writeOk s).gets = s.gets + 1 ∧
      (handleUDPConnection shouldReply ReadResult.err writeOk s).puts = s.puts ∧
      (handleUDPConnection shouldReply ReadResult.err writeOk s).idle
        = (bufferPoolGet s).2.idle) := by
  refine ⟨?_, ?_, ?_, ?_⟩
  · have h := listenAnswersBody_fields ReadResult.err s
    exact ⟨h.2.1, h.2.2.1, h.2.2.2.1, (listenAnswersBody_err s).2.2⟩
  · intro payload src
    have h := listenAnswersBody_fields (ReadResult.ok payload src) s
    exact ⟨h.2.1, h.2.2.1, h.2.2.2.1, listenAnswersBody_ok_idle payload src s⟩
  · intro shouldReply writeOk payload src
    have h := handleUDPConnection_ok shouldReply payload src writeOk s
    simp only at h
    exact ⟨h.2.2.2.2.2.2.1, h.2.2.2.2.2.2.2.1, h.2.2.2.2.2.2.2.2, h.2.2.2.2.2.1⟩
  · intro shouldReply writeOk
    unfold handleUDPConnection bufferPoolGet
    cases s.idle <;> simp

/-! ## C8: the answer listener is started unconditionally -/

/-- C8, evaluated on the code: with the defaults of `init`, where
`shouldListenForAnswers` is `false`, `send` still executes
`go listenAnswers(conn)`; a reply that then arrives on the socket brings
`answersRecv` from 0 to 1. The flag is never read: the state `send` reaches is
the same for both values of the flag. -/
theorem listener_started_when_disabled :
    SendConfig.default.shouldListenForAnswers = false ∧
    (sendStart Arch.amd64 SendConfig.default true Engine.init).2.listenerStarted = true ∧
    (sendStart Arch.amd64 SendConfig.default true Engine.init).1.proc = Proc.running ∧
    (listenAnswers [ReadResult.ok [1, 2, 3] 7]
      (sendStart Arch.amd64 SendConfig.default true Engine.init).1).1.answersRecv = 1 ∧
    sendStart Arch.amd64 { SendConfig.default with shouldListenForAnswers := true } true
        Engine.init
      = sendStart Arch.amd64 SendConfig.default true Engine.init := by
  refine ⟨rfl, ?_, ?_, ?_, rfl⟩ <;> decide!

/-! ## C9: degenerate packet sizes -/

/-- C9, as stated, fails for a negative packet size: with `packetSize = -1`
the first statement of `send`, `make([]byte, packetSize)`, panics; no payload
is built and nothing is written. -/
theorem negative_packet_size_panics :
    (sendStart Arch.amd64 { SendConfig.default with packetSize := -1 } true Engine.init).1.proc
      = Proc.panicked Panic.makesliceLenOutOfRange ∧
    (sendStart Arch.amd64 { SendConfig.default with packetSize := -1 } true Engine.init).2
      = Sender.fresh := by
  decide

/-- C9, amended. With packet size 0 `send` builds the empty payload without
error or panic and, once its socket is dialled and its ticker constructed,
every successful tick writes the empty byte sequence. With a negative packet
size `make([]byte, packetSize)` panics before anything else happens. -/
theorem packet_size_amended (arch : Arch) (cfg : SendConfig) (dialOk : Bool) (s : Engine) :
    (cfg.packetSize = 0 →
      makeBytes cfg.packetSize = Except.ok [] ∧
      (sendStart arch cfg dialOk s).2.message = [] ∧
      (dialOk = true → 0 < tickerDuration arch cfg.rate →
        sendStart arch cfg dialOk s
          = (s, { message := [], listenerStarted := true,
                  ticker := some (tickerDuration arch cfg.rate), connOpen := true }) ∧
        ∀ s' : Engine, (sendBody (SendEvent.tick true) (s', (sendStart arch cfg dialOk s).2)).1.1.wire
          = s'.wire ++ [(none, [])])) ∧
    (cfg.packetSize < 0 →
      sendStart arch cfg dialOk s
        = ({ s with proc := Proc.panicked Panic.makesliceLenOutOfRange }, Sender.fresh)) := by
  constructor
  · intro h0
    have hm : makeBytes cfg.packetSize = Except.ok [] := by
      rw [h0]
      simp [makeBytes, maxAlloc]
    refine ⟨hm, ?_, ?_⟩
    · unfold sendStart
      rw [hm]
      cases dialOk
      · simp
      · cases hn : newTicker (tickerDuration arch cfg.rate) <;> simp
    · intro hd hpos
      have hn : newTicker (tickerDuration arch cfg.rate)
          = Except.ok (tickerDuration arch cfg.rate) := by
        unfold newTicker
        rw [if_neg (by omega)]
      have hs : sendStart arch cfg dialOk s
          = (s, { message := [], listenerStarted := true,
                  ticker := some (tickerDuration arch cfg.rate), connOpen := true }) := by
        unfold sendStart
        rw [hm, hd]
        simp [hn]
      refine ⟨hs, ?_⟩
      intro s'
      rw [hs]
      simp [sendBody]
  · intro hneg
    unfold sendStart makeBytes
    rw [if_pos (Or.inl hneg)]

/-- The default configuration with packet size 0, and with packet size -3. -/
theorem packet_size_amended_example :
    (sendStart Arch.amd64 { SendConfig.default with packetSize := 0 } true Engine.init).2.message
      = [] ∧
    sendStart Arch.amd64 { SendConfig.default with packetSize := -3 } true Engine.init
      = ({ Engine.init with proc := Proc.panicked Panic.makesliceLenOutOfRange },
          Sender.fresh) :=
  ⟨((packet_size_amended Arch.amd64 { SendConfig.default with packetSize := 0 } true
      Engine.init).1 rfl).2.1,
   (packet_size_amended Arch.amd64 { SendConfig.default with packetSize := -3 } true
      Engine.init).2 (by decide)⟩

/-! ## C10: the answer listener on a closed socket -/

theorem listenAnswers_closed_aux (n : Nat) :
    ∀ s : Engine, s.proc = Proc.running →
      (listenAnswers (closedSocketReads n) s).2 = Goroutine.looping ∧
      (listenAnswers (closedSocketReads n) s).1.answersRecv = s.answersRecv ∧
      (listenAnswers (closedSocketReads n) s).1.proc = Proc.running ∧
      (listenAnswers (closedSocketReads n) s).1.checkedOut = s.checkedOut ∧
      (listenAnswers (closedSocketReads n) s).1.log
        = s.log ++ List.replicate n LogEntry.error := by
  induction n with
  | zero =>
    intro s hp
    simp [listenAnswers, closedSocketReads, forLoop, Engine.alive, hp]
  | succ n ih =>
    intro s hp
    have hf := listenAnswersBody_fields ReadResult.err s
    have he := listenAnswersBody_err s
    have hstep : listenAnswers (closedSocketReads (n + 1)) s
        = listenAnswers (closedSocketReads n) (listenAnswersBody ReadResult.err s).1 := by
      have hc : (listenAnswersBody ReadResult.err s).2 = Ctl.next := hf.1
      simp only [listenAnswers, closedSocketReads, List.replicate_succ, forLoop, Engine.alive,
        hp, decide_True, if_true]
      generalize listenAnswersBody ReadResult.err s = r at hc
      obtain ⟨r1, r2⟩ := r
      simp only at hc
      subst hc
      rfl
    have h := ih (listenAnswersBody ReadResult.err s).1 (by rw [hf.2.2.2.2.1]; exact hp)
    rw [hstep]
    refine ⟨h.1, by rw [h.2.1, he.1], h.2.2.1, by rw [h.2.2.2.1, hf.2.1], ?_⟩
    rw [h.2.2.2.2, he.2.1, List.append_assoc]
    congr 1

/-- C10, as stated, fails: on a closed socket, where every read fails, there
is no number of iterations after which `listenAnswers` has returned. -/
theorem listener_never_exits :
    ¬ ∃ n : Nat,
      (listenAnswers (closedSocketReads n) Engine.init).2 = Goroutine.returned := by
  rintro ⟨n, hn⟩
  have h := (listenAnswers_closed_aux n Engine.init rfl).1
  rw [h] at hn
  cases hn

/-- C10, amended. Once every read on the socket fails, `listenAnswers` keeps
iterating: after any number `n` of failed reads it is still in its loop, has
logged `n` error lines, has not incremented `answersRecv`, has every buffer
back in the pool and has not crashed the process. -/
theorem listener_spins_on_closed_socket (n : Nat) (s : Engine)
    (hproc : s.proc = Proc.running) :
    (listenAnswers (closedSocketReads n) s).2 = Goroutine.looping ∧
    (listenAnswers (closedSocketReads n) s).1.answersRecv = s.answersRecv ∧
    (listenAnswers (closedSocketReads n) s).1.proc = Proc.running ∧
    (listenAnswers (closedSocketReads n) s).1.checkedOut = s.checkedOut ∧
    (listenAnswers (closedSocketReads n) s).1.log
      = s.log ++ List.replicate n LogEntry.error :=
  listenAnswers_closed_aux n s hproc

/-- Five failed reads from the initial state: still looping, counter at zero. -/
theorem listener_spins_example :
    (listenAnswers (closedSocketReads 5) Engine.init).2 = Goroutine.looping ∧
    (listenAnswers (closedSocketReads 5) Engine.init).1.answersRecv = 0 :=
  ⟨(listener_spins_on_closed_socket 5 Engine.init rfl).1,
   (listener_spins_on_closed_socket 5 Engine.init rfl).2.1⟩

/-! ## Rounding to binary64 -/

theorem bitLenAux_zero (f : Nat) : bitLenAux f 0 = 0 := by
  cases f <;> simp [bitLenAux]

theorem bitLenAux_spec : ∀ (f n : Nat), 0 < n → n < 2 ^ f →
    2 ^ bitLenAux f n ≤ 2 * n ∧ n < 2 ^ bitLenAux f n := by
  intro f
  induction f with
  | zero =>
    intro n h1 h2
    simp at h2
    omega
  | succ f ih =>
    intro n h1 h2
    have hn : n ≠ 0 := by omega
    have hstep : bitLenAux (f + 1) n = bitLenAux f (n / 2) + 1 := by
      simp [bitLenAux, hn]
    rw [hstep, pow_succ]
    rw [pow_succ] at h2
    by_cases h0 : n / 2 = 0
    · rw [h0, bitLenAux_zero]
      simp
      omega
    · have := ih (n / 2) (by omega) (by omega)
      omega

theorem bitLen_spec (n : Nat) (h : 0 < n) :
    2 ^ bitLen n ≤ 2 * n ∧ n < 2 ^ bitLen n :=
  bitLenAux_spec n n h (Nat.lt_two_pow n)

theorem cast_two_pow_toNat (e : Int) (h : 0 ≤ e) :
    ((2 ^ e.toNat : ℕ) : ℚ) = (2 : ℚ) ^ e := by
  rw [Nat.cast_pow, ← zpow_natCast, Int.toNat_of_nonneg h]
  norm_num

theorem two_zpow_pos (e : Int) : (0 : ℚ) < (2 : ℚ) ^ e := zpow_pos (by norm_num) e

theorem floorLog2_spec (a b : Nat) (ha : 0 < a) (hb : 0 < b) :
    (2 : ℚ) ^ (floorLog2 a b) ≤ (a : ℚ) / b ∧ (a : ℚ) / b < (2 : ℚ) ^ (floorLog2 a b + 1) := by
  have hA := bitLen_spec a ha
  have hB := bitLen_spec b hb
  have haq : (0 : ℚ) < a := by exact_mod_cast ha
  have hbq : (0 : ℚ) < b := by exact_mod_cast hb
  have hA1 : (2 : ℚ) ^ (bitLen a : ℤ) ≤ 2 * a := by
    rw [zpow_natCast]; exact_mod_cast hA.1
  have hA2 : (a : ℚ) < (2 : ℚ) ^ (bitLen a : ℤ) := by
    rw [zpow_natCast]; exact_mod_cast hA.2
  have hB1 : (2 : ℚ) ^ (bitLen b : ℤ) ≤ 2 * b := by
    rw [zpow_natCast]; exact_mod_cast hB.1
  have hB2 : (b : ℚ) < (2 : ℚ) ^ (bitLen b : ℤ) := by
    rw [zpow_natCast]; exact_mod_cast hB.2
  have h2 : (2 : ℚ) ≠ 0 := by norm_num
  set d : ℤ := (bitLen a : ℤ) - (bitLen b : ℤ) with hd
  have hPA := two_zpow_pos (bitLen a : ℤ)
  have hPB := two_zpow_pos (bitLen b : ℤ)
  have hPd := two_zpow_pos d
  have hdmul : (2 : ℚ) ^ d * (2 : ℚ) ^ (bitLen b : ℤ) = (2 : ℚ) ^ (bitLen a : ℤ) := by
    rw [← zpow_add₀ h2, hd]; congr 1; ring
  -- a / b lies strictly between 2^(d-1) and 2^(d+1)
  have hup : (a : ℚ) / b < (2 : ℚ) ^ (d + 1) := by
    rw [div_lt_iff₀ hbq, zpow_add₀ h2, zpow_one]
    nlinarith
  have hlow : (2 : ℚ) ^ (d - 1) ≤ (a : ℚ) / b := by
    rw [le_div_iff₀ hbq, zpow_sub₀ h2, zpow_one, div_mul_eq_mul_div, div_le_iff₀ (by norm_num)]
    nlinarith
  -- the test the code performs
  have htest : (if 0 ≤ d then decide (b * 2 ^ d.toNat ≤ a) else decide (b ≤ a * 2 ^ (-d).toNat))
      = decide ((2 : ℚ) ^ d ≤ (a : ℚ) / b) := by
    by_cases h0 : 0 ≤ d
    · rw [if_pos h0]
      congr 1
      rw [le_div_iff₀ hbq, ← cast_two_pow_toNat d h0, mul_comm, eq_iff_iff]
      exact_mod_cast Iff.rfl
    · rw [if_neg h0]
      congr 1
      have hnd : 0 ≤ -d := by omega
      have hinv : (2 : ℚ) ^ d = ((2 : ℚ) ^ (-d))⁻¹ := by rw [zpow_neg, inv_inv]
      rw [le_div_iff₀ hbq, hinv, ← cast_two_pow_toNat (-d) hnd, eq_iff_iff]
      have hpos : (0 : ℚ) < ((2 ^ (-d).toNat : ℕ) : ℚ) := by
        rw [cast_two_pow_toNat (-d) hnd]; exact two_zpow_pos _
      rw [inv_mul_le_iff₀ hpos]
      rw [mul_comm]
      exact_mod_cast Iff.rfl
  unfold floorLog2
  simp only
  rw [← hd]
  by_cases hq : (2 : ℚ) ^ d ≤ (a : ℚ) / b
  · have hk : (if 0 ≤ d then (if b * 2 ^ d.toNat ≤ a then d else d - 1)
        else (if b ≤ a * 2 ^ (-d).toNat then d else d - 1)) = d := by
      by_cases h0 : 0 ≤ d
      · have := htest; rw [if_pos h0] at this
        rw [if_pos h0, if_pos]
        simpa [hq] using this
      · have := htest; rw [if_neg h0] at this
        rw [if_neg h0, if_pos]
        simpa [hq] using this
    rw [hk]
    exact ⟨hq, hup⟩
  · have hk : (if 0 ≤ d then (if b * 2 ^ d.toNat ≤ a then d else d - 1)
        else (if b ≤ a * 2 ^ (-d).toNat then d else d - 1)) = d - 1 := by
      by_cases h0 : 0 ≤ d
      · have := htest; rw [if_pos h0] at this
        rw [if_pos h0, if_neg]
        simpa [hq] using this
      · have := htest; rw [if_neg h0] at this
        rw [if_neg h0, if_neg]
        simpa [hq] using this
    rw [hk]
    refine ⟨hlow, ?_⟩
    have : d - 1 + 1 = d := by ring
    rw [this]
    exact lt_of_not_le hq

theorem roundNearestEven_bounds (a b : Nat) (hb : 0 < b) :
    2 * (roundNearestEven a b * b) ≤ 2 * a + b ∧ 2 * a ≤ 2 * (roundNearestEven a b * b) + b := by
  have hdm : b * (a / b) + a % b = a := Nat.div_add_mod a b
  have hcomm : a / b * b = b * (a / b) := Nat.mul_comm _ _
  have hsucc : (a / b + 1) * b = b * (a / b) + b := by ring
  unfold roundNearestEven
  simp only
  have hr : a % b < b := Nat.mod_lt _ hb
  split_ifs <;> (first | rw [hcomm] | rw [hsucc]) <;> omega

theorem roundNearestEven_spec (a b : Nat) (hb : 0 < b) :
    |(roundNearestEven a b : ℚ) - (a : ℚ) / b| ≤ 1 / 2 := by
  have h := roundNearestEven_bounds a b hb
  have hbq : (0 : ℚ) < b := by exact_mod_cast hb
  have h1 : (2 : ℚ) * ((roundNearestEven a b : ℚ) * b) ≤ 2 * a + b := by exact_mod_cast h.1
  have h2 : (2 : ℚ) * a ≤ 2 * ((roundNearestEven a b : ℚ) * b) + b := by exact_mod_cast h.2
  rw [abs_le]
  constructor
  · rw [le_sub_iff_add_le, ← sub_eq_neg_add, sub_le_iff_le_add, div_le_iff₀ hbq]
    linarith
  · rw [sub_le_iff_le_add, ← sub_le_iff_le_add', le_div_iff₀ hbq]
    linarith

/-- The binary64 rounding of `a / b` is within half a unit in the last place:
a relative error of at most `2^-53`. -/
theorem roundBinary64_spec (a b : Nat) (ha : 0 < a) (hb : 0 < b) :
    |((roundBinary64 a b).1 : ℚ) * (2 : ℚ) ^ (roundBinary64 a b).2 - (a : ℚ) / b|
      ≤ (a : ℚ) / b * (2 : ℚ) ^ (-53 : ℤ) := by
  have hk := (floorLog2_spec a b ha hb).1
  have haq : (0 : ℚ) < a := by exact_mod_cast ha
  have hbq : (0 : ℚ) < b := by exact_mod_cast hb
  have h2 : (2 : ℚ) ≠ 0 := by norm_num
  set k := floorLog2 a b with hkdef
  set e : ℤ := k - 52 with hedef
  have hPe := two_zpow_pos e
  -- half a unit in the last place is at most the relative bound
  have hulp : (2 : ℚ) ^ e * (1 / 2) ≤ (a : ℚ) / b * (2 : ℚ) ^ (-53 : ℤ) := by
    have : (2 : ℚ) ^ e * (1 / 2) = (2 : ℚ) ^ k * (2 : ℚ) ^ (-53 : ℤ) := by
      have h1 : (1 / 2 : ℚ) = (2 : ℚ) ^ (-1 : ℤ) := by norm_num
      rw [h1, ← zpow_add₀ h2, ← zpow_add₀ h2, hedef]
      congr 1
      ring
    rw [this]
    exact mul_le_mul_of_nonneg_right hk (le_of_lt (two_zpow_pos _))
  have key : ∀ m : ℕ, |(m : ℚ) - (a : ℚ) / b / (2 : ℚ) ^ e| ≤ 1 / 2 →
      |(m : ℚ) * (2 : ℚ) ^ e - (a : ℚ) / b| ≤ (a : ℚ) / b * (2 : ℚ) ^ (-53 : ℤ) := by
    intro m hm
    have : (m : ℚ) * (2 : ℚ) ^ e - (a : ℚ) / b
        = ((m : ℚ) - (a : ℚ) / b / (2 : ℚ) ^ e) * (2 : ℚ) ^ e := by
      field_simp
      ring
    rw [this, abs_mul, abs_of_pos hPe]
    calc |(m : ℚ) - (a : ℚ) / b / (2 : ℚ) ^ e| * (2 : ℚ) ^ e
        ≤ 1 / 2 * (2 : ℚ) ^ e := mul_le_mul_of_nonneg_right hm (le_of_lt hPe)
      _ = (2 : ℚ) ^ e * (1 / 2) := by ring
      _ ≤ _ := hulp
  unfold roundBinary64
  simp only
  rw [← hkdef, ← hedef]
  by_cases h0 : 0 ≤ e
  · rw [if_pos h0]
    simp only
    apply key
    have hpos : 0 < b * 2 ^ e.toNat := Nat.mul_pos hb (Nat.pos_pow_of_pos _ (by norm_num))
    have := roundNearestEven_spec a (b * 2 ^ e.toNat) hpos
    rw [Nat.cast_mul, cast_two_pow_toNat e h0] at this
    rw [div_div]
    exact this
  · rw [if_neg h0]
    simp only
    apply key
    have hne : 0 ≤ -e := by omega
    have := roundNearestEven_spec (a * 2 ^ (-e).toNat) b hb
    rw [Nat.cast_mul, cast_two_pow_toNat (-e) hne, zpow_neg] at this
    have heq : (a : ℚ) / b / (2 : ℚ) ^ e = (a : ℚ) * ((2 : ℚ) ^ e)⁻¹ / b := by
      field_simp
      left
      ring
    rw [heq]
    exact this

theorem ulp_small : (2 : ℚ) ^ (-53 : ℤ) ≤ 1 / 10 ^ 15 := by
  rw [zpow_neg]
  norm_num

theorem roundBinary64_le (a b : Nat) (ha : 0 < a) (hb : 0 < b) :
    ((roundBinary64 a b).1 : ℚ) * (2 : ℚ) ^ (roundBinary64 a b).2
      ≤ (a : ℚ) / b * (1 + 1 / 10 ^ 15) := by
  have h := (abs_le.1 (roundBinary64_spec a b ha hb)).2
  have hq : (0 : ℚ) ≤ (a : ℚ) / b := by positivity
  have := mul_le_mul_of_nonneg_left ulp_small hq
  linarith

theorem roundBinary64_ge (a b : Nat) (ha : 0 < a) (hb : 0 < b) :
    (a : ℚ) / b * (1 - 1 / 10 ^ 15)
      ≤ ((roundBinary64 a b).1 : ℚ) * (2 : ℚ) ^ (roundBinary64 a b).2 := by
  have h := (abs_le.1 (roundBinary64_spec a b ha hb)).1
  have hq : (0 : ℚ) ≤ (a : ℚ) / b := by positivity
  have := mul_le_mul_of_nonneg_left ulp_small hq
  linarith

theorem roundBinary64_pos (a b : Nat) (ha : 0 < a) (hb : 0 < b) :
    0 < (roundBinary64 a b).1 := by
  have h := roundBinary64_ge a b ha hb
  have haq : (0 : ℚ) < a := by exact_mod_cast ha
  have hbq : (0 : ℚ) < b := by exact_mod_cast hb
  have hq : (0 : ℚ) < (a : ℚ) / b * (1 - 1 / 10 ^ 15) :=
    mul_pos (div_pos haq hbq) (by norm_num)
  have hv := lt_of_lt_of_le hq h
  by_contra h0
  have : (roundBinary64 a b).1 = 0 := by omega
  rw [this] at hv
  simp at hv

theorem two_pow_toNat_pos (e : Int) : 0 < 2 ^ e.toNat := Nat.pos_pow_of_pos _ (by norm_num)

theorem recipMag_pos (m : Nat) (e : Int) (hm : 0 < m) : 0 < (recipMag m e).1 := by
  unfold recipMag
  split_ifs
  · exact roundBinary64_pos _ _ (by norm_num) (Nat.mul_pos hm (two_pow_toNat_pos _))
  · exact roundBinary64_pos _ _ (two_pow_toNat_pos _) hm

/-- The rounded reciprocal `y` of `x = m * 2^e` satisfies
`1 - 10^-15 ≤ y * x ≤ 1 + 10^-15`. -/
theorem recipMag_bounds (m : Nat) (e : Int) (hm : 0 < m) :
    1 - 1 / 10 ^ 15
      ≤ ((recipMag m e).1 : ℚ) * (2 : ℚ) ^ (recipMag m e).2 * ((m : ℚ) * (2 : ℚ) ^ e) ∧
    ((recipMag m e).1 : ℚ) * (2 : ℚ) ^ (recipMag m e).2 * ((m : ℚ) * (2 : ℚ) ^ e)
      ≤ 1 + 1 / 10 ^ 15 := by
  have hmq : (0 : ℚ) < m := by exact_mod_cast hm
  have hP := two_zpow_pos e
  have hx : (0 : ℚ) < (m : ℚ) * (2 : ℚ) ^ e := mul_pos hmq hP
  have hcancel : ∀ c : ℚ, (1 : ℚ) / ((m : ℚ) * (2 : ℚ) ^ e) * c * ((m : ℚ) * (2 : ℚ) ^ e) = c := by
    intro c
    field_simp
  unfold recipMag
  by_cases h0 : 0 ≤ e
  · rw [if_pos h0]
    have hb : 0 < m * 2 ^ e.toNat := Nat.mul_pos hm (two_pow_toNat_pos _)
    have hle := roundBinary64_le 1 (m * 2 ^ e.toNat) (by norm_num) hb
    have hge := roundBinary64_ge 1 (m * 2 ^ e.toNat) (by norm_num) hb
    rw [Nat.cast_mul, cast_two_pow_toNat e h0, Nat.cast_one] at hle hge
    have h1 := mul_le_mul_of_nonneg_right hle (le_of_lt hx)
    have h2 := mul_le_mul_of_nonneg_right hge (le_of_lt hx)
    rw [hcancel] at h1 h2
    exact ⟨h2, h1⟩
  · rw [if_neg h0]
    have hne : 0 ≤ -e := by omega
    have hle := roundBinary64_le (2 ^ (-e).toNat) m (two_pow_toNat_pos _) hm
    have hge := roundBinary64_ge (2 ^ (-e).toNat) m (two_pow_toNat_pos _) hm
    rw [cast_two_pow_toNat (-e) hne] at hle hge
    have hq : (2 : ℚ) ^ (-e) / (m : ℚ) = 1 / ((m : ℚ) * (2 : ℚ) ^ e) := by
      rw [zpow_neg]
      field_simp
      ring
    rw [hq] at hle hge
    have h1 := mul_le_mul_of_nonneg_right hle (le_of_lt hx)
    have h2 := mul_le_mul_of_nonneg_right hge (le_of_lt hx)
    rw [hcancel] at h1 h2
    exact ⟨h2, h1⟩

theorem mulMag_bounds (k m : Nat) (e : Int) (hk : 0 < k) (hm : 0 < m) :
    (k : ℚ) * ((m : ℚ) * (2 : ℚ) ^ e) * (1 - 1 / 10 ^ 15)
      ≤ ((mulMag k m e).1 : ℚ) * (2 : ℚ) ^ (mulMag k m e).2 ∧
    ((mulMag k m e).1 : ℚ) * (2 : ℚ) ^ (mulMag k m e).2
      ≤ (k : ℚ) * ((m : ℚ) * (2 : ℚ) ^ e) * (1 + 1 / 10 ^ 15) := by
  unfold mulMag
  by_cases h0 : 0 ≤ e
  · rw [if_pos h0]
    have ha : 0 < k * m * 2 ^ e.toNat := Nat.mul_pos (Nat.mul_pos hk hm) (two_pow_toNat_pos _)
    have hle := roundBinary64_le (k * m * 2 ^ e.toNat) 1 ha (by norm_num)
    have hge := roundBinary64_ge (k * m * 2 ^ e.toNat) 1 ha (by norm_num)
    rw [Nat.cast_mul, Nat.cast_mul, cast_two_pow_toNat e h0, Nat.cast_one, div_one] at hle hge
    rw [← mul_assoc]
    exact ⟨hge, hle⟩
  · rw [if_neg h0]
    have hne : 0 ≤ -e := by omega
    have hle := roundBinary64_le (k * m) (2 ^ (-e).toNat) (Nat.mul_pos hk hm)
      (two_pow_toNat_pos _)
    have hge := roundBinary64_ge (k * m) (2 ^ (-e).toNat) (Nat.mul_pos hk hm)
      (two_pow_toNat_pos _)
    rw [Nat.cast_mul, cast_two_pow_toNat (-e) hne, zpow_neg, div_inv_eq_mul] at hle hge
    rw [← mul_assoc]
    exact ⟨hge, hle⟩

/-- The magnitude `z` of `(1/float64(n))*1000` satisfies
`1000 - 10^-11 ≤ z * n ≤ 1000 + 10^-11`. -/
theorem periodMag_bounds (n : Nat) (hn : 0 < n) :
    1000 - 1 / 10 ^ 11 ≤ ((periodMag n).1 : ℚ) * (2 : ℚ) ^ (periodMag n).2 * n ∧
    ((periodMag n).1 : ℚ) * (2 : ℚ) ^ (periodMag n).2 * n ≤ 1000 + 1 / 10 ^ 11 := by
  have hx1 := roundBinary64_ge n 1 hn (by norm_num)
  have hx2 := roundBinary64_le n 1 hn (by norm_num)
  have hxpos := roundBinary64_pos n 1 hn (by norm_num)
  rw [Nat.cast_one, div_one] at hx1 hx2
  have hy := recipMag_bounds (roundBinary64 n 1).1 (roundBinary64 n 1).2 hxpos
  have hypos := recipMag_pos (roundBinary64 n 1).1 (roundBinary64 n 1).2 hxpos
  have hz := mulMag_bounds 1000 (recipMag (roundBinary64 n 1).1 (roundBinary64 n 1).2).1
    (recipMag (roundBinary64 n 1).1 (roundBinary64 n 1).2).2 (by norm_num) hypos
  have hzdef : periodMag n = mulMag 1000 (recipMag (roundBinary64 n 1).1 (roundBinary64 n 1).2).1
    (recipMag (roundBinary64 n 1).1 (roundBinary64 n 1).2).2 := rfl
  rw [hzdef]
  have hy0 : (0 : ℚ) ≤ ((recipMag (roundBinary64 n 1).1 (roundBinary64 n 1).2).1 : ℚ)
      * (2 : ℚ) ^ (recipMag (roundBinary64 n 1).1 (roundBinary64 n 1).2).2 :=
    mul_nonneg (Nat.cast_nonneg _) (le_of_lt (two_zpow_pos _))
  have hz0 : (0 : ℚ) ≤ ((mulMag 1000 (recipMag (roundBinary64 n 1).1 (roundBinary64 n 1).2).1
      (recipMag (roundBinary64 n 1).1 (roundBinary64 n 1).2).2).1 : ℚ)
      * (2 : ℚ) ^ (mulMag 1000 (recipMag (roundBinary64 n 1).1 (roundBinary64 n 1).2).1
      (recipMag (roundBinary64 n 1).1 (roundBinary64 n 1).2).2).2 :=
    mul_nonneg (Nat.cast_nonneg _) (le_of_lt (two_zpow_pos _))
  generalize ((roundBinary64 n 1).1 : ℚ) * (2 : ℚ) ^ (roundBinary64 n 1).2 = x at hx1 hx2 hy
  generalize ((recipMag (roundBinary64 n 1).1 (roundBinary64 n 1).2).1 : ℚ)
    * (2 : ℚ) ^ (recipMag (roundBinary64 n 1).1 (roundBinary64 n 1).2).2 = y at hy hz hy0
  generalize ((mulMag 1000 (recipMag (roundBinary64 n 1).1 (roundBinary64 n 1).2).1
      (recipMag (roundBinary64 n 1).1 (roundBinary64 n 1).2).2).1 : ℚ)
      * (2 : ℚ) ^ (mulMag 1000 (recipMag (roundBinary64 n 1).1 (roundBinary64 n 1).2).1
      (recipMag (roundBinary64 n 1).1 (roundBinary64 n 1).2).2).2 = z at hz hz0
  have hnq : (0 : ℚ) < n := by exact_mod_cast hn
  generalize (n : ℚ) = N at hx1 hx2 hnq
  push_cast at hz
  obtain ⟨hy1, hy2⟩ := hy
  obtain ⟨hz1, hz2⟩ := hz
  have hc1 : (0 : ℚ) < 1 - 1 / 10 ^ 15 := by norm_num
  have hc2 : (0 : ℚ) < 1 + 1 / 10 ^ 15 := by norm_num
  have hyN : 0 ≤ y * N := mul_nonneg hy0 (le_of_lt hnq)
  constructor
  · -- y * N * (1 + c) ≥ y * x ≥ 1 - c and z ≥ 1000 * y * (1 - c)
    have hA : 1 - 1 / 10 ^ 15 ≤ y * N * (1 + 1 / 10 ^ 15) := by
      have := mul_le_mul_of_nonneg_left hx2 hy0
      linarith
    have hB : 1000 * (y * N) * (1 - 1 / 10 ^ 15) ≤ z * N := by
      have := mul_le_mul_of_nonneg_right hz1 (le_of_lt hnq)
      linarith
    have hC : 1000 * (1 - 1 / 10 ^ 15) * (1 - 1 / 10 ^ 15) ≤ z * N * (1 + 1 / 10 ^ 15) := by
      have h1 := mul_le_mul_of_nonneg_right hB (le_of_lt hc2)
      have h2 := mul_le_mul_of_nonneg_left hA (by norm_num : (0 : ℚ) ≤ 1000 * (1 - 1 / 10 ^ 15))
      linarith
    have hD : (1000 - 1 / 10 ^ 11) * (1 + 1 / 10 ^ 15) ≤ z * N * (1 + 1 / 10 ^ 15) :=
      le_trans (by norm_num) hC
    exact le_of_mul_le_mul_right hD hc2
  · have hA : y * N * (1 - 1 / 10 ^ 15) ≤ 1 + 1 / 10 ^ 15 := by
      have := mul_le_mul_of_nonneg_left hx1 hy0
      linarith
    have hB : z * N ≤ 1000 * (y * N) * (1 + 1 / 10 ^ 15) := by
      have := mul_le_mul_of_nonneg_right hz2 (le_of_lt hnq)
      linarith
    have hC : z * N * (1 - 1 / 10 ^ 15) ≤ 1000 * (1 + 1 / 10 ^ 15) * (1 + 1 / 10 ^ 15) := by
      have h1 := mul_le_mul_of_nonneg_right hB (le_of_lt hc1)
      have h2 := mul_le_mul_of_nonneg_left hA (by norm_num : (0 : ℚ) ≤ 1000 * (1 + 1 / 10 ^ 15))
      linarith
    have hD : z * N * (1 - 1 / 10 ^ 15) ≤ (1000 + 1 / 10 ^ 11) * (1 - 1 / 10 ^ 15) :=
      le_trans hC (by norm_num)
    exact le_of_mul_le_mul_right hD hc1

/-- The truncation `t` of `z = m * 2^e` is its integer part: `t ≤ z < t + 1`. -/
theorem truncMag_floor (m : Nat) (e : Int) :
    ((truncMag m e : ℕ) : ℚ) ≤ (m : ℚ) * (2 : ℚ) ^ e ∧
    (m : ℚ) * (2 : ℚ) ^ e < ((truncMag m e : ℕ) : ℚ) + 1 := by
  unfold truncMag
  by_cases h0 : 0 ≤ e
  · rw [if_pos h0, Nat.cast_mul, cast_two_pow_toNat e h0]
    exact ⟨le_refl _, by linarith⟩
  · rw [if_neg h0]
    have hne : 0 ≤ -e := by omega
    have hpos := two_pow_toNat_pos (-e)
    have hposq : (0 : ℚ) < ((2 ^ (-e).toNat : ℕ) : ℚ) := by exact_mod_cast hpos
    have hz : (m : ℚ) * (2 : ℚ) ^ e = (m : ℚ) / ((2 ^ (-e).toNat : ℕ) : ℚ) := by
      rw [cast_two_pow_toNat (-e) hne, zpow_neg, div_inv_eq_mul]
    rw [hz]
    constructor
    · exact Nat.cast_div_le
    · rw [div_lt_iff₀ hposq]
      have := Nat.lt_mul_div_succ m hpos
      have hc : (m : ℚ) < ((2 ^ (-e).toNat : ℕ) : ℚ) * (((m / 2 ^ (-e).toNat : ℕ) : ℚ) + 1) := by
        exact_mod_cast this
      linarith

/-- For a nonzero rate the float expression is finite, with the sign of the
rate and the magnitude `periodMag`. -/
theorem period_float (i : Int) (hi : i ≠ 0) :
    ((F64.ofInt i).recip).mulConst 1000
      = F64.finite (decide (i < 0)) (periodMag i.natAbs).1 (periodMag i.natAbs).2 := by
  unfold F64.ofInt
  rw [if_neg hi]
  rfl

/-- For a nonzero rate the period is the truncated magnitude with the sign of
the rate, at most 1000 in absolute value, on every architecture. -/
theorem tickPeriodMs_nonzero (arch : Arch) (i : Int) (hi : i ≠ 0) :
    truncMag (periodMag i.natAbs).1 (periodMag i.natAbs).2 ≤ 1000 ∧
    tickPeriodMs arch i
      = if i < 0 then -(truncMag (periodMag i.natAbs).1 (periodMag i.natAbs).2 : Int)
        else (truncMag (periodMag i.natAbs).1 (periodMag i.natAbs).2 : Int) := by
  have hn : 0 < i.natAbs := Int.natAbs_pos.2 hi
  have hz := (periodMag_bounds i.natAbs hn).2
  have ht := (truncMag_floor (periodMag i.natAbs).1 (periodMag i.natAbs).2).1
  have hnq : (1 : ℚ) ≤ (i.natAbs : ℚ) := by exact_mod_cast hn
  have hz0 : (0 : ℚ) ≤ ((periodMag i.natAbs).1 : ℚ) * (2 : ℚ) ^ (periodMag i.natAbs).2 :=
    mul_nonneg (Nat.cast_nonneg _) (le_of_lt (two_zpow_pos _))
  have hle : ((truncMag (periodMag i.natAbs).1 (periodMag i.natAbs).2 : ℕ) : ℚ) < 1001 := by
    have h1 : ((periodMag i.natAbs).1 : ℚ) * (2 : ℚ) ^ (periodMag i.natAbs).2
        ≤ ((periodMag i.natAbs).1 : ℚ) * (2 : ℚ) ^ (periodMag i.natAbs).2 * (i.natAbs : ℚ) :=
      le_mul_of_one_le_right hz0 hnq
    have h2 : (1000 : ℚ) + 1 / 10 ^ 11 < 1001 := by norm_num
    linarith
  have hle' : truncMag (periodMag i.natAbs).1 (periodMag i.natAbs).2 < 1001 := by
    exact_mod_cast hle
  refine ⟨by omega, ?_⟩
  unfold tickPeriodMs
  rw [period_float i hi]
  unfold F64.toInt64
  simp only
  by_cases hneg : i < 0
  · simp only [hneg, decide_True, if_true]
    rw [if_pos]
    constructor <;> omega
  · simp only [hneg, decide_False, if_false, Bool.false_eq_true]
    rw [if_pos]
    constructor <;> omega

/-- Every rate above 1000 gives a period of zero milliseconds. -/
theorem tickPeriodMs_large (arch : Arch) (i : Int) (hi : 1000 < i) :
    tickPeriodMs arch i = 0 := by
  have h := tickPeriodMs_nonzero arch i (by omega)
  have hn : 0 < i.natAbs := Int.natAbs_pos.2 (by omega)
  have hz := (periodMag_bounds i.natAbs hn).2
  have ht := (truncMag_floor (periodMag i.natAbs).1 (periodMag i.natAbs).2).1
  have hnq : (1001 : ℚ) ≤ (i.natAbs : ℚ) := by
    have : 1001 ≤ i.natAbs := by omega
    exact_mod_cast this
  have hz0 : (0 : ℚ) ≤ ((periodMag i.natAbs).1 : ℚ) * (2 : ℚ) ^ (periodMag i.natAbs).2 :=
    mul_nonneg (Nat.cast_nonneg _) (le_of_lt (two_zpow_pos _))
  have hlt : ((truncMag (periodMag i.natAbs).1 (periodMag i.natAbs).2 : ℕ) : ℚ) < 1 := by
    have h1 : ((periodMag i.natAbs).1 : ℚ) * (2 : ℚ) ^ (periodMag i.natAbs).2 * 1001
        ≤ ((periodMag i.natAbs).1 : ℚ) * (2 : ℚ) ^ (periodMag i.natAbs).2 * (i.natAbs : ℚ) :=
      mul_le_mul_of_nonneg_left hnq hz0
    have h2 : (1000 : ℚ) + 1 / 10 ^ 11 < 1001 := by norm_num
    linarith
  have hlt' : truncMag (periodMag i.natAbs).1 (periodMag i.natAbs).2 < 1 := by
    exact_mod_cast hlt
  rw [h.2, if_neg (by omega)]
  omega

/-- Every negative rate gives a period between -1000 and 0 milliseconds. -/
theorem tickPeriodMs_neg (arch : Arch) (i : Int) (hi : i < 0) :
    -1000 ≤ tickPeriodMs arch i ∧ tickPeriodMs arch i ≤ 0 := by
  have h := tickPeriodMs_nonzero arch i (by omega)
  rw [h.2, if_pos hi]
  constructor <;> omega

theorem tickPeriodMs_arch (arch : Arch) (i : Int) (hi : i ≠ 0) :
    tickPeriodMs arch i = tickPeriodMs Arch.amd64 i := by
  rw [(tickPeriodMs_nonzero arch i hi).2, (tickPeriodMs_nonzero Arch.amd64 i hi).2]

/-- For a rate from 1 to 1000 that does not divide 1000, the exact quotient
`1000 / n` is far enough from a whole number for the rounding errors not to
matter: the truncated period is the integer quotient. -/
theorem truncMag_periodMag (n : Nat) (h1 : 1 ≤ n) (hnd : 1000 % n ≠ 0) :
    truncMag (periodMag n).1 (periodMag n).2 = 1000 / n := by
  have hb := periodMag_bounds n (by omega)
  have hf := truncMag_floor (periodMag n).1 (periodMag n).2
  have hdm : n * (1000 / n) + 1000 % n = 1000 := Nat.div_add_mod 1000 n
  have hr : 1000 % n < n := Nat.mod_lt _ (by omega)
  have hdmq : (n : ℚ) * ((1000 / n : ℕ) : ℚ) + ((1000 % n : ℕ) : ℚ) = 1000 := by
    exact_mod_cast hdm
  have hr1 : (1 : ℚ) ≤ ((1000 % n : ℕ) : ℚ) := by
    have : 1 ≤ 1000 % n := by omega
    exact_mod_cast this
  have hr2 : ((1000 % n : ℕ) : ℚ) + 1 ≤ (n : ℚ) := by
    have : 1000 % n + 1 ≤ n := by omega
    exact_mod_cast this
  have hnq : (0 : ℚ) < n := by
    have : 0 < n := by omega
    exact_mod_cast this
  generalize ((periodMag n).1 : ℚ) * (2 : ℚ) ^ (periodMag n).2 = z at hb hf
  generalize truncMag (periodMag n).1 (periodMag n).2 = t at hf ⊢
  have hsmall : (1 : ℚ) / 10 ^ 11 < 1 := by norm_num
  -- t * n ≤ z * n < (q + 1) * n and q * n < z * n < (t + 1) * n
  have hA : (t : ℚ) * n < (((1000 / n : ℕ) : ℚ) + 1) * n := by
    have := mul_le_mul_of_nonneg_right hf.1 (le_of_lt hnq)
    nlinarith
  have hB : ((1000 / n : ℕ) : ℚ) * n < ((t : ℚ) + 1) * n := by
    have := mul_lt_mul_of_pos_right hf.2 hnq
    nlinarith
  have hA' : (t : ℚ) < ((1000 / n : ℕ) : ℚ) + 1 := lt_of_mul_lt_mul_right hA (le_of_lt hnq)
  have hB' : ((1000 / n : ℕ) : ℚ) < (t : ℚ) + 1 := lt_of_mul_lt_mul_right hB (le_of_lt hnq)
  have hA'' : t < 1000 / n + 1 := by exact_mod_cast hA'
  have hB'' : 1000 / n < t + 1 := by exact_mod_cast hB'
  omega

theorem periodTable : periodTableOk 1000 = true := by decide!

/-- For every rate from 1 to 1000 the period is the integer quotient `1000 / rate`. -/
theorem tickPeriodMs_table (arch : Arch) (i : Int) (h1 : 1 ≤ i) (h2 : i ≤ 1000) :
    tickPeriodMs arch i = 1000 / i := by
  rw [tickPeriodMs_arch arch i (by omega)]
  by_cases hd : 1000 % i.toNat = 0
  · have h := periodTable
    unfold periodTableOk at h
    rw [List.all_eq_true] at h
    have := h (i.toNat - 1) (by rw [List.mem_range]; omega)
    have hn : i.toNat - 1 + 1 = i.toNat := by omega
    have hc : (((i.toNat - 1 : ℕ) : Int) + 1) = i := by omega
    rw [hn, hc, hd] at this
    simpa using this
  · have hnat : i.natAbs = i.toNat := by omega
    have ht := truncMag_periodMag i.toNat (by omega) hd
    rw [(tickPeriodMs_nonzero Arch.amd64 i (by omega)).2, if_neg (by omega), hnat, ht]
    have hi : ((i.toNat : ℕ) : Int) = i := by omega
    rw [Int.natCast_div, hi]
    rfl

/-- The duration handed to `time.NewTicker` is not strictly positive exactly
for the rates that are at most 0 or above 1000. -/
theorem tickerDuration_nonpos_iff (arch : Arch) (i : Int) :
    tickerDuration arch i ≤ 0 ↔ (i ≤ 0 ∨ 1000 < i) := by
  unfold tickerDuration
  rcases lt_trichotomy i 0 with hneg | hzero | hpos
  · have h := tickPeriodMs_neg arch i hneg
    rw [wrapInt64_of_range _ (by omega) (by omega)]
    constructor
    · intro _; left; omega
    · intro _; omega
  · subst hzero
    constructor
    · intro _; left; omega
    · intro _
      cases arch <;> decide
  · by_cases hl : 1000 < i
    · rw [tickPeriodMs_large arch i hl]
      constructor
      · intro _; right; exact hl
      · intro _; decide
    · have ht := tickPeriodMs_table arch i (by omega) (by omega)
      have hq1 : 1 ≤ 1000 / i := by
        apply Int.le_ediv_of_mul_le (by omega)
        omega
      have hq2 : 1000 / i ≤ 1000 := by
        apply Int.ediv_le_self
        omega
      rw [ht, wrapInt64_of_range _ (by omega) (by omega)]
      constructor
      · intro h; omega
      · intro h; omega

/-! ## C6: rates without a positive period -/

/-- C6, as stated, fails at rate 0: `send` does not reject the configuration.
It builds the payload, dials and hands the non-positive duration to
`time.NewTicker`, which panics; no fatal error is logged and no ticker
exists. The duration is 0 on amd64 and -1000000 ns on arm64. -/
theorem rate_zero_reaches_ticker :
    (sendStart Arch.amd64 { SendConfig.default with rate := 0 } true Engine.init).1.proc
      = Proc.panicked (Panic.nonPositiveTickerInterval 0) ∧
    (sendStart Arch.arm64 { SendConfig.default with rate := 0 } true Engine.init).1.proc
      = Proc.panicked (Panic.nonPositiveTickerInterval (-1000000)) ∧
    (sendStart Arch.amd64 { SendConfig.default with rate := 0 } true Engine.init).1.log = [] ∧
    (sendStart Arch.amd64 { SendConfig.default with rate := 0 } true Engine.init).2.ticker
      = none := by
  decide

/-- C6, amended. For every rate that is at most 0 the duration `send` derives
is not strictly positive, and `send` performs no validation of it: once the
payload is built (a packet size that `make` accepts) and the socket dialled,
that duration is passed to `time.NewTicker`, which panics. No fatal startup
error is logged, nothing else of the state changes, and no ticker exists. -/
theorem nonpositive_rate_panics (arch : Arch) (cfg : SendConfig) (s : Engine)
    (hsize : 0 ≤ cfg.packetSize) (hmax : cfg.packetSize ≤ maxAlloc) (hrate : cfg.rate ≤ 0) :
    tickerDuration arch cfg.rate ≤ 0 ∧
    (sendStart arch cfg true s).1
      = { s with
          proc := Proc.panicked (Panic.nonPositiveTickerInterval (tickerDuration arch cfg.rate)) } ∧
    (sendStart arch cfg true s).2.ticker = none := by
  have hd := (tickerDuration_nonpos_iff arch cfg.rate).2 (Or.inl hrate)
  refine ⟨hd, ?_⟩
  have hm : makeBytes cfg.packetSize = Except.ok (List.replicate cfg.packetSize.toNat 0) := by
    unfold makeBytes
    rw [if_neg (by omega)]
  have hn : newTicker (tickerDuration arch cfg.rate)
      = Except.error (Panic.nonPositiveTickerInterval (tickerDuration arch cfg.rate)) := by
    unfold newTicker
    rw [if_pos hd]
  unfold sendStart
  rw [hm]
  simp [hn]

/-- Rate -5 with the other defaults: the duration is -200 ms and the process
panics in `time.NewTicker`. -/
theorem nonpositive_rate_panics_example :
    tickerDuration Arch.amd64 (-5) = -200000000 ∧
    (sendStart Arch.amd64 { SendConfig.default with rate := -5 } true Engine.init).1.proc
      = Proc.panicked (Panic.nonPositiveTickerInterval (-200000000)) := by
  have h := nonpositive_rate_panics Arch.amd64 { SendConfig.default with rate := -5 }
    Engine.init (by decide) (by decide) (by decide)
  have hd : tickerDuration Arch.amd64 (-5) = -200000000 := by decide
  refine ⟨hd, ?_⟩
  rw [h.2.1]
  show Proc.panicked (Panic.nonPositiveTickerInterval (tickerDuration Arch.amd64 (-5))) = _
  rw [hd]

/-! ## C5: rate accuracy -/

/-- C5. Rate accuracy, evaluated on the code at rate 600: `send` truncates
the period `(1/600)*1000 = 1.66...` ms to 1 ms and constructs its ticker with
1000000 ns, so 1000 tick periods fit in one second where the rate asks for
600. The tick count `1000 * T / p` of the claim is 1000 for `T = 1`, which
differs from `600 * 1` by 400, and a send loop that is handed those 1000
ticks and writes each of them successfully brings `sent` to 1000. -/
theorem rate_600_overshoots :
    tickPeriodMs Arch.amd64 600 = 1 ∧
    (sendStart Arch.amd64 { SendConfig.default with rate := 600 } true Engine.init).1
      = Engine.init ∧
    (sendStart Arch.amd64 { SendConfig.default with rate := 600 } true Engine.init).2.ticker
      = some 1000000 ∧
    1000 * tickerDuration Arch.amd64 600 = 1000000000 ∧
    1000 * 1 / tickPeriodMs Arch.amd64 600 = 1000 ∧
    ¬ (|1000 * 1 / tickPeriodMs Arch.amd64 600 - 600 * 1| ≤ 1) ∧
    (sendLoop ((List.replicate 1000 true).map SendEvent.tick)
      (sendStart Arch.amd64 { SendConfig.default with rate := 600 } true Engine.init)).1.1.sent
      = 1000 := by
  have hd : tickerDuration Arch.amd64 600 = 1000000 := by decide
  have hp : tickPeriodMs Arch.amd64 600 = 1 := by decide
  have hs : (sendStart Arch.amd64 { SendConfig.default with rate := 600 } true Engine.init).1
      = Engine.init := by
    decide
  refine ⟨hp, hs, by decide, by rw [hd]; decide, by rw [hp]; decide, by rw [hp]; decide, ?_⟩
  have hc : (List.replicate 1000 true).count true = 1000 := List.count_replicate_self _ _
  have h := sendLoop_counts_aux (List.replicate 1000 true)
    (sendStart Arch.amd64 { SendConfig.default with rate := 600 } true Engine.init).1
    (sendStart Arch.amd64 { SendConfig.default with rate := 600 } true Engine.init).2
    (by rw [hs]; rfl) (by rw [hs]; decide) (by rw [hs, hc]; decide)
  rw [h.2.1, hs, hc]
  decide

end UdpBench
